import Mathlib

/-!
Verification of the florun dataflow engine (`src/florun/flow.py`) against its
natural-language specification.

The development contains three shallow embeddings of the source:

* a graph model (`Florun.SFlow`): `Flow` objects with their node list,
  `modified` flag, interface connections (the `successors`/`predecessors`
  lists of `Interface`, kept symmetric by `addSuccessor`/`removeSuccessor`
  and therefore represented by a single connector list), and the
  connection-compatibility rule `canConnectTo`;
* the XML persistence boundary (`exportXml`/`importXml`), with the XML tree
  represented structurally (`Florun.XDoc`) rather than as text — the mapping
  between the tree and its textual rendering is the job of
  `xml.dom.minidom` and is not part of the engine;
* a small-step interleaving semantics of the concurrent scheduler
  (`Florun.Runner`): one worker per node executing `Node.start`, with
  `threading.Event` gates (`canRun`), readiness bookkeeping
  (`Interface.onContentReady` / `Node.onInterfaceReady`) and the
  `Runner.start` kick loop, modelled as a step relation on an explicit
  state.

Python object identity is modelled by position: nodes are identified by
their index in `Flow.nodes`, interfaces by the pair
(owning node index, interface name); `Interface` defines no `__eq__`, so
`==` in the source is object identity, which coincides with this encoding
whenever interface names are unique inside a node (the shape produced by
every node constructor in the source).
-/

namespace Florun

/-- The four interface directions, `Interface.PARAMETER/INPUT/RESULT/OUTPUT`. -/
inductive IfaceType
  | parameter
  | input
  | result
  | output
deriving DecidableEq

/-- The payload kind of an interface: which of the three concrete
`Interface` subclasses (`InterfaceValue`, `InterfaceStream`,
`InterfaceList`) the object is an instance of; `base` stands for a plain
`Interface` instance (as used by the test suite), which is a subclass of
none of the three. -/
inductive IfaceKind
  | base
  | value
  | stream
  | list
deriving DecidableEq

/-- `Interface.isInput`: true for `INPUT` and `PARAMETER` directions. -/
def IfaceType.isInput : IfaceType → Bool
  | .input => true
  | .parameter => true
  | _ => false

/-- The mutable state of one `Interface` object: its name, direction, payload
kind, `slot` flag and current value (`InterfaceValue._value`, a string in
every flow the engine builds). The `successors`/`predecessors` lists live in
`SFlow.connectors`. -/
structure SIface where
  name : String
  ty : IfaceType
  kind : IfaceKind
  slot : Bool
  value : String
deriving DecidableEq

/-- The concrete node classes of `flow.py` that `importXml` can instantiate
via `eval(classname)`. -/
inductive NodeType
  | processNode
  | fileInputNode
  | valueInputNode
  | commandLineParameterInputNode
  | commandLineStdinInputNode
  | fileListInputNode
  | fileOutputNode
  | commandLineStdoutOutputNode
deriving DecidableEq

/-- `Node.classname` (`self.__class__.__name__`). -/
def NodeType.classname : NodeType → String
  | .processNode => "ProcessNode"
  | .fileInputNode => "FileInputNode"
  | .valueInputNode => "ValueInputNode"
  | .commandLineParameterInputNode => "CommandLineParameterInputNode"
  | .commandLineStdinInputNode => "CommandLineStdinInputNode"
  | .fileListInputNode => "FileListInputNode"
  | .fileOutputNode => "FileOutputNode"
  | .commandLineStdoutOutputNode => "CommandLineStdoutOutputNode"

/-- The class attribute `label` of each node class. -/
def NodeType.label : NodeType → String
  | .processNode => "Process"
  | .fileInputNode => "File"
  | .valueInputNode => "Value"
  | .commandLineParameterInputNode => "CLI Param"
  | .commandLineStdinInputNode => "CLI Stdin"
  | .fileListInputNode => "File list"
  | .fileOutputNode => "File"
  | .commandLineStdoutOutputNode => "CLI Stdout"

/-- Whether the class is a subclass of `InputNode`
(`issubclass(n.__class__, InputNode)`, used by `Flow.inputNodes`). -/
def NodeType.isInputNode : NodeType → Bool
  | .fileInputNode => true
  | .valueInputNode => true
  | .commandLineParameterInputNode => true
  | .commandLineStdinInputNode => true
  | .fileListInputNode => true
  | _ => false

/-- The fixed interfaces each node class declares in its `__init__`
(name, direction, payload kind, initial `slot` flag, initial value).
`Interface.__init__` sets `slot = kwargs.get('slot', True)` and
`value = kwargs.get('value', default)`. -/
def NodeType.declIfaces : NodeType → List SIface
  | .processNode =>
      [⟨"stdin", .input, .stream, true, "EOF"⟩,
       ⟨"stdout", .output, .stream, true, "EOF"⟩,
       ⟨"stderr", .output, .stream, true, "EOF"⟩,
       ⟨"cmd", .parameter, .value, false, ""⟩,
       ⟨"result", .result, .value, true, "0"⟩]
  | .fileInputNode =>
      [⟨"filepath", .parameter, .value, false, ""⟩,
       ⟨"output", .output, .stream, true, "EOF"⟩]
  | .valueInputNode =>
      [⟨"value", .parameter, .value, false, ""⟩,
       ⟨"out", .output, .value, true, ""⟩]
  | .commandLineParameterInputNode =>
      [⟨"name", .parameter, .value, false, ""⟩,
       ⟨"value", .output, .value, true, ""⟩,
       ⟨"default", .parameter, .value, false, ""⟩]
  | .commandLineStdinInputNode =>
      [⟨"output", .output, .stream, true, "EOF"⟩]
  | .fileListInputNode => []
  | .fileOutputNode =>
      [⟨"filepath", .parameter, .value, false, ""⟩,
       ⟨"input", .input, .stream, true, "EOF"⟩]
  | .commandLineStdoutOutputNode =>
      [⟨"input", .input, .stream, true, "EOF"⟩]

/-- `eval(classname)` restricted to the instantiable node classes;
an unknown name raises `Unknown node type`. -/
def classnameToType (s : String) : Option NodeType :=
  if s == "ProcessNode" then some .processNode
  else if s == "FileInputNode" then some .fileInputNode
  else if s == "ValueInputNode" then some .valueInputNode
  else if s == "CommandLineParameterInputNode" then some .commandLineParameterInputNode
  else if s == "CommandLineStdinInputNode" then some .commandLineStdinInputNode
  else if s == "FileListInputNode" then some .fileListInputNode
  else if s == "FileOutputNode" then some .fileOutputNode
  else if s == "CommandLineStdoutOutputNode" then some .commandLineStdoutOutputNode
  else none

/-- One `Node` object: its id, class, graphical properties and interfaces.
Interfaces are listed in declaration order (the source discovers them by
introspection of `__dict__`, whose order is unspecified; no engine operation
depends on the order). -/
structure SNode where
  id : String
  typeTag : NodeType
  graphicalprops : List (String × Int)
  ifaces : List SIface
deriving DecidableEq

/-- An interface reference: (owning node index in `Flow.nodes`, interface
name). Object identity of interfaces coincides with equality of references
when names are unique per node. -/
abbrev Ref := Nat × String

/-- One `Flow` object. `connectors` is the list of directed interface
connections; `Interface.successors` and `Interface.predecessors` are its two
projections (`addSuccessor`/`removeSuccessor` always update the two lists in
lock-step, so a single relation represents them faithfully). -/
structure SFlow where
  modified : Bool
  filename : Option String
  nodes : List SNode
  connectors : List (Ref × Ref)
deriving DecidableEq

/-- `Flow()` — a fresh empty flow. -/
def emptyFlow : SFlow := ⟨false, none, [], []⟩

/-- `Node.findInterface(name)`: first interface with the given name
(`None` models the raised exception). -/
def SNode.findInterface (n : SNode) (name : String) : Option SIface :=
  n.ifaces.find? (fun s => s.name == name)

/-- Look an interface up by reference. -/
def SFlow.iface (f : SFlow) (r : Ref) : Option SIface :=
  match f.nodes[r.1]? with
  | some n => n.findInterface r.2
  | none => none

/-- `interface.successors` of the interface `a`. -/
def SFlow.successors (f : SFlow) (a : Ref) : List Ref :=
  (f.connectors.filter (fun e => e.1 == a)).map (fun e => e.2)

/-- `interface.predecessors` of the interface `b`. -/
def SFlow.predecessors (f : SFlow) (b : Ref) : List Ref :=
  (f.connectors.filter (fun e => e.2 == b)).map (fun e => e.1)

/-- The subclass test loop of `Interface.canConnectTo`: both interfaces must
be instances of the same one of `InterfaceStream`, `InterfaceValue`,
`InterfaceList`. -/
def sameAncestor (k1 k2 : IfaceKind) : Bool :=
  [IfaceKind.stream, IfaceKind.value, IfaceKind.list].any
    (fun c => k1 == c && k2 == c)

/-- `Interface.canConnectTo(other)`: false when `self == other` or both
belong to the same node, otherwise true iff both are instances of the same
concrete payload class. NOTE: the source performs no direction check (its
docstring leaves `output --> input` as an open question). -/
def SFlow.canConnectTo (f : SFlow) (a b : Ref) : Bool :=
  match f.iface a, f.iface b with
  | some da, some db =>
      if a == b || a.1 == b.1 then false
      else sameAncestor da.kind db.kind
  | _, _ => false

/-- `Interface.addSuccessor(interface)`: raises `Cannot connect slots` unless
`canConnectTo`, otherwise appends to `self.successors` and to
`interface.predecessors` (one connector in this model). -/
def SFlow.addSuccessor (f : SFlow) (a b : Ref) : Except String SFlow :=
  if f.canConnectTo a b then
    .ok { f with connectors := f.connectors ++ [(a, b)] }
  else
    .error "Cannot connect slots"

/-- `Interface.removeSuccessor(interface)`: `list.remove` on both lists —
removes the first occurrence, raising (modelled by `.error`) when the pair is
not connected. -/
def SFlow.removeSuccessor (f : SFlow) (a b : Ref) : Except String SFlow :=
  if (a, b) ∈ f.connectors then
    .ok { f with connectors := f.connectors.erase (a, b) }
  else
    .error "list.remove(x): x not in list"

/-- `Flow.addConnector(start, end)`: sets `modified` before delegating to
`addSuccessor`; when the latter raises, the flag change has already
happened, so the error case also returns the flagged state. -/
def SFlow.addConnector (f : SFlow) (a b : Ref) : SFlow × Option String :=
  let f1 := { f with modified := true }
  match f1.addSuccessor a b with
  | .ok f2 => (f2, none)
  | .error e => (f1, some e)

/-- `Flow.removeConnector(start, end)`: sets `modified` before delegating to
`removeSuccessor`. -/
def SFlow.removeConnector (f : SFlow) (a b : Ref) : SFlow × Option String :=
  let f1 := { f with modified := true }
  match f1.removeSuccessor a b with
  | .ok f2 => (f2, none)
  | .error e => (f1, some e)

/-- `Flow.addNode(node)`: sets `modified` and appends — the source performs
no duplicate-id check of any kind. -/
def SFlow.addNode (f : SFlow) (n : SNode) : SFlow :=
  { f with modified := true, nodes := f.nodes ++ [n] }

/-- `Flow.removeNode(node)`: sets `modified`, then `list.remove`, which
raises when the node is absent. -/
def SFlow.removeNode (f : SFlow) (n : SNode) : SFlow × Option String :=
  let f1 := { f with modified := true }
  if n ∈ f1.nodes then
    ({ f1 with nodes := f1.nodes.erase n }, none)
  else
    (f1, some "list.remove(x): x not in list")

/-- `Flow.randomId(node)`: first of `label`, `label-2`, `label-3`, … not used
by a registered node. The source loop is unbounded; `nodes.length + 1`
candidate suffixes always suffice because the candidates are pairwise
distinct and there are more of them than registered nodes. -/
def SFlow.randomId (f : SFlow) (label : String) : String :=
  ((label :: (List.range (f.nodes.length + 1)).map
      (fun i => label ++ "-" ++ toString (i + 2))).find?
    (fun c => !(f.nodes.any (fun n => n.id == c)))).getD label

/-- `Flow.findNode(id)`: first node with the id (`None` models the raised
exception). -/
def SFlow.findNode (f : SFlow) (id : String) : Option SNode :=
  f.nodes.find? (fun n => n.id == id)

/-- Index of the node `Flow.findNode` returns. -/
def SFlow.findNodeIdx (f : SFlow) (id : String) : Option Nat :=
  f.nodes.findIdx? (fun n => n.id == id)

/-- `Flow.inputNodes`: the nodes whose class is a subclass of `InputNode`. -/
def SFlow.inputNodes (f : SFlow) : List SNode :=
  f.nodes.filter (fun n => n.typeTag.isInputNode)

/-! ## XML persistence boundary

The XML tree is represented structurally; `getAttribute` on a missing
attribute returns the empty string, so attributes are plain strings with
`""` as the absent value. -/

/-- A `<successor node=... interface=...>` element. -/
structure XSucc where
  node : String
  iface : String
deriving DecidableEq

/-- An `<interface>` element: name, the `slot`/`value` attributes (written
only for input value interfaces; `getAttribute` yields `""` otherwise) and
the successor elements. -/
structure XIface where
  name : String
  slotAttr : String
  valueAttr : String
  succs : List XSucc
deriving DecidableEq

/-- A `<node>` element. -/
structure XNode where
  id : String
  ty : String
  props : List (String × String)
  ifaces : List XIface
deriving DecidableEq

/-- The `<flow>` document. -/
structure XDoc where
  nodes : List XNode
deriving DecidableEq

/-- Python `"%s" % bool`. -/
def pyBool (b : Bool) : String := if b then "True" else "False"

/-- Python `str.lower()`, character by character. -/
def pyLower (s : String) : String := String.mk (s.data.map Char.toLower)

/-- `attribute.lower() == 'true'` as read back by `importXml`. -/
def parseSlot (s : String) : Bool := pyLower s == "true"

/-- `utils.atoi`, modelled from its use: `graphproperty` values are written
with `unicode(int)` and read back as integers (`utils.py` is not part of the
sources; graphical properties play no role in any claim). -/
def atoi (s : String) : Int := s.toInt?.getD 0

/-- The id of the node at an index (`successor.node.id`; the index always
resolves for flows whose connectors point at registered nodes). -/
def SFlow.nodeIdAt (f : SFlow) (i : Nat) : String :=
  match f.nodes[i]? with
  | some n => n.id
  | none => ""

/-- The `<interface>` element `exportXml` writes for interface `s` of the
node at index `i`. -/
def exportIface (f : SFlow) (i : Nat) (s : SIface) : XIface :=
  { name := s.name
    slotAttr :=
      if s.ty.isInput && s.kind == .value then pyBool s.slot else ""
    valueAttr :=
      if s.ty.isInput && s.kind == .value && !s.slot then s.value
      else ""
    succs := (f.successors (i, s.name)).map (fun r =>
      { node := f.nodeIdAt r.1, iface := r.2 }) }

/-- The `<node>` element `exportXml` writes for the node `n` at index `i`. -/
def exportNode (f : SFlow) (i : Nat) (n : SNode) : XNode :=
  { id := n.id
    ty := n.typeTag.classname
    props := n.graphicalprops.map (fun q => (q.1, toString q.2))
    ifaces := n.ifaces.map (exportIface f i) }

/-- `Flow.exportXml`: one `<node>` element per node in order, with
`graphproperty` children, one `<interface>` child per interface carrying the
`slot`/`value` attributes only for input value interfaces and one
`<successor>` child per connected successor. -/
def SFlow.exportXml (f : SFlow) : XDoc :=
  { nodes := f.nodes.enum.map (fun p => exportNode f p.1 p.2) }

/-- Apply a function to the element at an index. -/
def listSet (l : List α) (i : Nat) (g : α → α) : List α :=
  match l, i with
  | [], _ => []
  | x :: t, 0 => g x :: t
  | x :: t, i + 1 => x :: listSet t i g

/-- Mutate the first interface with a given name inside a node. -/
def updFirstIface (l : List SIface) (name : String) (g : SIface → SIface) :
    List SIface :=
  match l with
  | [] => []
  | s :: rest =>
      if s.name == name then g s :: rest
      else s :: updFirstIface rest name g

/-- Mutate the interface object denoted by a reference. -/
def SFlow.setIface (f : SFlow) (r : Ref) (g : SIface → SIface) : SFlow :=
  let upd := fun (n : SNode) => { n with ifaces := updFirstIface n.ifaces r.2 g }
  { f with nodes := listSet f.nodes r.1 upd }

/-- First pass of `importXml`: instantiate each node
(`classobj(flow=flow, id=id)`, which draws a `randomId` when the id is
blank), load its graphical properties and `addNode` it. -/
def importNodesAux : List XNode → SFlow → Except String SFlow
  | [], f => .ok f
  | xn :: rest, f =>
      match classnameToType xn.ty with
      | none => .error "Unknown node type"
      | some t =>
          let nid := if xn.id == "" then f.randomId t.label else xn.id
          let node : SNode :=
            { id := nid
              typeTag := t
              graphicalprops := xn.props.map (fun p => (p.1, atoi p.2))
              ifaces := t.declIfaces }
          importNodesAux rest (f.addNode node)

/-- Second pass, innermost loop: re-establish the `<successor>` links of one
interface. Each target interface is marked as a slot before
`addSuccessor`. -/
def wireSuccs (f : SFlow) (src : Ref) : List XSucc → Except String SFlow
  | [] => .ok f
  | xs :: rest =>
      match f.findNodeIdx xs.node with
      | none => .error "Node with id not found"
      | some didx =>
          match f.iface (didx, xs.iface) with
          | none => .error "Interface with name not found"
          | some _ =>
              let f1 := f.setIface (didx, xs.iface) (fun s => { s with slot := true })
              match f1.addSuccessor src (didx, xs.iface) with
              | .error e => .error e
              | .ok f2 => wireSuccs f2 src rest

/-- Second pass, one `<interface>` element: `src.slot = True`, then for
input value interfaces restore the recorded `slot` flag and, when not a
slot, the recorded literal value; then re-establish the successors. -/
def wireIface (f : SFlow) (nidx : Nat) (xi : XIface) : Except String SFlow :=
  match f.iface (nidx, xi.name) with
  | none => .error "Interface with name not found"
  | some decl =>
      let f1 := f.setIface (nidx, xi.name) (fun s => { s with slot := true })
      let f2 :=
        if decl.ty.isInput && decl.kind == .value then
          let sl := parseSlot xi.slotAttr
          let fa := f1.setIface (nidx, xi.name) (fun s => { s with slot := sl })
          if !sl then
            fa.setIface (nidx, xi.name) (fun s => { s with value := xi.valueAttr })
          else fa
        else f1
      wireSuccs f2 (nidx, xi.name) xi.succs

/-- Second pass over the `<interface>` elements of one `<node>` element. -/
def wireIfaces (f : SFlow) (nidx : Nat) : List XIface → Except String SFlow
  | [] => .ok f
  | xi :: rest =>
      match wireIface f nidx xi with
      | .error e => .error e
      | .ok f1 => wireIfaces f1 nidx rest

/-- Second pass over the `<node>` elements: each is resolved again through
`findNode` on its id attribute. -/
def wireNodes (f : SFlow) : List XNode → Except String SFlow
  | [] => .ok f
  | xn :: rest =>
      match f.findNodeIdx xn.id with
      | none => .error "Node with id not found"
      | some nidx =>
          match wireIfaces f nidx xn.ifaces with
          | .error e => .error e
          | .ok f1 => wireNodes f1 rest

/-- `Flow.importXml`: instantiate all nodes, then re-walk the document and
re-establish every connection. -/
def importXml (d : XDoc) : Except String SFlow :=
  match importNodesAux d.nodes emptyFlow with
  | .error e => .error e
  | .ok f => wireNodes f d.nodes

/-- `Flow.load(filename)`: parse the file content (the parsed tree is the
argument here — reading bytes from disk is outside the model), then record
the filename and reset `modified`. -/
def load (filename : String) (content : XDoc) : Except String SFlow :=
  match importXml content with
  | .error e => .error e
  | .ok f => .ok { f with filename := some filename, modified := false }

/-- `Flow.save()`: serialize (the returned document stands for the written
file) and reset `modified`. -/
def SFlow.save (f : SFlow) : XDoc × SFlow :=
  (f.exportXml, { f with modified := false })

/-! ## Connection rules (claims C3, C4, C5) -/

/-- Two nodes, each carrying a single `INPUT`-direction `InterfaceValue`:
neither interface is output-like. -/
def inputPairFlow : SFlow :=
  { modified := false, filename := none
    nodes :=
      [⟨"n1", .valueInputNode, [], [⟨"a", .input, .value, true, ""⟩]⟩,
       ⟨"n2", .valueInputNode, [], [⟨"b", .input, .value, true, ""⟩]⟩]
    connectors := [] }

/-- Claim C3: the claim states that `connect` fails with `InvalidConnection`
whenever the source is not output-like or the target is not input-like, and
in particular that connecting two input-like interfaces of different nodes
with the same payload kind fails. The code checks only identity, node
equality and payload kind — never direction — so two `INPUT` value
interfaces of different nodes connect successfully. This theorem evaluates
the code at that failing input. -/
theorem c3_code_eval :
    IfaceType.isInput .input = true
    ∧ inputPairFlow.canConnectTo (0, "a") (1, "b") = true
    ∧ inputPairFlow.addSuccessor (0, "a") (1, "b") =
        .ok { inputPairFlow with connectors := [((0, "a"), (1, "b"))] }
    ∧ (1, "b") ∈ (SFlow.successors
        { inputPairFlow with connectors := [((0, "a"), (1, "b"))] } (0, "a")) := by
  refine ⟨rfl, by decide, rfl, by decide⟩

/-- Claim C4: for all interfaces A (output-like) and B (input-like) of
different nodes with the same concrete payload kind, `connect(A,B)` succeeds
and afterwards B is among A's successors and A among B's predecessors. -/
theorem c4_connect_ok (f : SFlow) (a b : Ref) (da db : SIface)
    (ha : f.iface a = some da) (hb : f.iface b = some db)
    (hdira : da.ty.isInput = false) (hdirb : db.ty.isInput = true)
    (hnode : a.1 ≠ b.1) (hkind : da.kind = db.kind) (hbase : da.kind ≠ .base) :
    ∃ f', f.addSuccessor a b = .ok f'
      ∧ b ∈ f'.successors a ∧ a ∈ f'.predecessors b := by
  have hne : a ≠ b := fun h => hnode (by rw [h])
  have hcan : f.canConnectTo a b = true := by
    unfold SFlow.canConnectTo
    rw [ha, hb]
    have h1 : (a == b) = false := beq_false_of_ne hne
    have h2 : (a.1 == b.1) = false := beq_false_of_ne hnode
    rw [h1, h2]
    simp only [Bool.false_or, if_false]
    unfold sameAncestor
    cases hk : da.kind <;> rw [hk] at hkind hbase <;> simp [← hkind] <;> simp at hbase
  refine ⟨{ f with connectors := f.connectors ++ [(a, b)] }, ?_, ?_, ?_⟩
  · unfold SFlow.addSuccessor
    rw [hcan]
    simp
  · unfold SFlow.successors
    simp
  · unfold SFlow.predecessors
    simp

/-- A flow exercising claim C4: a `ValueInputNode`-shaped producer and a
consumer with a value parameter. -/
def valueChainFlow : SFlow :=
  { modified := false, filename := none
    nodes :=
      [⟨"src", .valueInputNode, [], [⟨"out", .output, .value, true, ""⟩]⟩,
       ⟨"dst", .processNode, [], [⟨"cmd", .parameter, .value, false, ""⟩]⟩]
    connectors := [] }

/-- Witness for claim C4 at a concrete connection. -/
theorem c4_witness :
    ∃ f', valueChainFlow.addSuccessor (0, "out") (1, "cmd") = .ok f'
      ∧ (1, "cmd") ∈ f'.successors (0, "out")
      ∧ (0, "out") ∈ f'.predecessors (1, "cmd") :=
  c4_connect_ok valueChainFlow (0, "out") (1, "cmd")
    ⟨"out", .output, .value, true, ""⟩ ⟨"cmd", .parameter, .value, false, ""⟩
    (by decide) (by decide) (by decide) (by decide) (by decide) (by decide) (by decide)

/-- The state after connecting `src.out` to the non-slot parameter
`dst.cmd` of `valueChainFlow`. -/
def valueChainFlowAfter : SFlow :=
  { valueChainFlow with connectors := [((0, "out"), (1, "cmd"))] }

/-- Claim C5 counterexample: the claim states that after every successful
`connect(source, target)` the target is marked slot-fed. Connecting onto the
non-slot parameter `cmd` succeeds but leaves its `slot` flag `False`:
`addSuccessor` only appends to the successor/predecessor lists (the slot
flag is touched only by `importXml`). -/
theorem c5_counterexample :
    valueChainFlow.addSuccessor (0, "out") (1, "cmd") = .ok valueChainFlowAfter
    ∧ valueChainFlowAfter.iface (1, "cmd") =
        some ⟨"cmd", .parameter, .value, false, ""⟩
    ∧ (valueChainFlow.iface (1, "cmd")).map (fun s => s.slot) = some false
    ∧ (valueChainFlowAfter.iface (1, "cmd")).map (fun s => s.slot) = some false := by
  refine ⟨rfl, rfl, rfl, rfl⟩

/-- Claim C5 amended: a successful `connect` registers the connector but
leaves every interface object — in particular the target's `slot` flag —
unchanged; slot marking happens only during XML import. -/
theorem c5_amended (f f' : SFlow) (a b : Ref)
    (h : f.addSuccessor a b = .ok f') :
    f'.nodes = f.nodes ∧ ∀ r, f'.iface r = f.iface r := by
  unfold SFlow.addSuccessor at h
  by_cases hc : f.canConnectTo a b = true
  · rw [hc] at h
    simp at h
    subst h
    exact ⟨rfl, fun r => rfl⟩
  · rw [Bool.not_eq_true] at hc
    rw [hc] at h
    simp at h

/-- Witness for the amended claim C5. -/
theorem c5_witness :
    valueChainFlowAfter.nodes = valueChainFlow.nodes
    ∧ ∀ r, valueChainFlowAfter.iface r = valueChainFlow.iface r :=
  c5_amended valueChainFlow valueChainFlowAfter (0, "out") (1, "cmd") rfl

/-! ## Flow mutations (claims C7, C10) -/

/-- Claim C7: the claim (and the test suite, `tests.py::test_addNode`)
states that adding a second node with the same non-blank id fails with
`DuplicateNodeId`. `Flow.addNode` performs no check whatsoever: evaluating
the code at the failing input, the second `addNode` succeeds and the flow
ends up with two nodes of id `foo`. -/
theorem c7_code_eval :
    ((emptyFlow.addNode ⟨"foo", .valueInputNode, [], []⟩).addNode
        ⟨"foo", .valueInputNode, [], []⟩).nodes.map (fun n => n.id)
      = ["foo", "foo"] := rfl

/-- Claim C10: every graph mutation (`addNode`, `removeNode`,
`addConnector`, `removeConnector`) sets `modified` before returning — on
the failure path of the latter three the flag is likewise already set when
the exception propagates — while `save` and `load` reset it to `False`. -/
theorem c10_modified_flag :
    (∀ f n, (SFlow.addNode f n).modified = true)
    ∧ (∀ f n, (SFlow.removeNode f n).1.modified = true)
    ∧ (∀ f a b, (SFlow.addConnector f a b).1.modified = true)
    ∧ (∀ f a b, (SFlow.removeConnector f a b).1.modified = true)
    ∧ (∀ f, (SFlow.save f).2.modified = false)
    ∧ (∀ fn d f, load fn d = .ok f → f.modified = false) := by
  refine ⟨fun f n => rfl, ?_, ?_, ?_, fun f => rfl, ?_⟩
  · intro f n
    unfold SFlow.removeNode
    by_cases h : n ∈ ({ f with modified := true } : SFlow).nodes <;> simp [h]
  · intro f a b
    simp only [SFlow.addConnector, SFlow.addSuccessor]
    by_cases hc : SFlow.canConnectTo { f with modified := true } a b = true
    · rw [hc]
      simp
    · rw [Bool.not_eq_true] at hc
      rw [hc]
      simp
  · intro f a b
    unfold SFlow.removeConnector
    by_cases h : (a, b) ∈ ({ f with modified := true } : SFlow).connectors <;>
      simp [SFlow.removeSuccessor, h]
  · intro fn d f h
    unfold load at h
    rcases hi : importXml d with e | f1 <;> rw [hi] at h <;> simp at h
    rw [← h]

/-- Witness for claim C10: the flag after a concrete mutation and after a
concrete `load`. -/
theorem c10_witness :
    (emptyFlow.addNode ⟨"w", .valueInputNode, [], []⟩).modified = true
    ∧ (⟨false, some "a", [], []⟩ : SFlow).modified = false :=
  ⟨c10_modified_flag.1 emptyFlow ⟨"w", .valueInputNode, [], []⟩,
   c10_modified_flag.2.2.2.2.2 "a" ⟨[]⟩ ⟨false, some "a", [], []⟩ rfl⟩

/-! ## Concurrent scheduler (`Runner.start`, `NodeRunner`, `Node.start`)

The scheduler spawns one thread per node (`NodeRunner.run` calls
`Node.start`), then signals `canRun` for every `InputNode` without
predecessors, then joins every thread. `Node.start` blocks on
`canRun.wait()`, invokes `run()`, clears the event and notifies every
successor of every output interface (`Interface.onContentReady`, which feeds
`Node.onInterfaceReady`). This is modelled as a small-step interleaving
semantics: one step per engine-visible action of a worker or of the
scheduler kick loop. A node description carries a `failing` bit standing for
node business logic whose `run()` raises; `flow.py` wraps nothing in
`try/except`, so a raise unwinds `Node.start` and terminates the thread
(phase `dead`) without publishing — `threading` prints the traceback and the
thread dies, `join` still returns.

Ghost instrumentation (fields that mirror events without influencing any
transition): `runCount` counts `run()` invocations per node, `notifyCount`
counts `Node.onInterfaceReady` notifications per interface, `delivered`
logs the (source, target) pairs passed to `onContentReady`, and `failures`
is the record of faults attributed to nodes — no code in `flow.py` writes
any such record, so no step touches it. -/

/-- Static description of one node for the execution model: its id, whether
its class derives from `InputNode`, and whether its `run()` raises. -/
structure NodeDecl where
  id : String
  isInputNode : Bool
  failing : Bool
deriving DecidableEq

/-- Static description of one interface: owning node index, name,
direction, payload kind and `slot` flag as they stand when the run starts. -/
structure IfaceDecl where
  node : Nat
  name : String
  ty : IfaceType
  kind : IfaceKind
  slot : Bool
deriving DecidableEq

/-- The flow graph handed to `Runner`: nodes and interfaces indexed by
position, and the connector list (`successors`/`predecessors`). -/
structure FlowG where
  nodes : List NodeDecl
  ifaces : List IfaceDecl
  edges : List (Nat × Nat)
deriving DecidableEq

/-- Owning node of an interface (an out-of-range index maps to the invalid
node index `nodes.length`). -/
def FlowG.owner (G : FlowG) (i : Nat) : Nat :=
  match G.ifaces[i]? with
  | some d => d.node
  | none => G.nodes.length

/-- `interface.predecessors` (source ends of the connectors into `i`). -/
def FlowG.preds (G : FlowG) (i : Nat) : List Nat :=
  (G.edges.filter (fun e => e.2 == i)).map (fun e => e.1)

/-- `interface.successors`. -/
def FlowG.succsOf (G : FlowG) (i : Nat) : List Nat :=
  (G.edges.filter (fun e => e.1 == i)).map (fun e => e.2)

/-- `node.interfaces` as indices. -/
def FlowG.nodeIfaceIdxs (G : FlowG) (n : Nat) : List Nat :=
  (List.range G.ifaces.length).filter (fun i => G.owner i == n)

/-- `interface.isInput()` by index. -/
def FlowG.isInputIface (G : FlowG) (i : Nat) : Bool :=
  match G.ifaces[i]? with
  | some d => d.ty.isInput
  | none => false

/-- `interface.slot` by index. -/
def FlowG.isSlotIface (G : FlowG) (i : Nat) : Bool :=
  match G.ifaces[i]? with
  | some d => d.slot
  | none => false

/-- `Node.inputSlotInterfaces`. -/
def FlowG.inputSlotIfaces (G : FlowG) (n : Nat) : List Nat :=
  (G.nodeIfaceIdxs n).filter (fun i => G.isInputIface i && G.isSlotIface i)

/-- `Node.outputInterfaces` (`not i.isInput()`). -/
def FlowG.outputIfaces (G : FlowG) (n : Nat) : List Nat :=
  (G.nodeIfaceIdxs n).filter (fun i => !G.isInputIface i)

/-- The notifications `Node.start` performs after `run()` returns: for every
output interface, for each of its successors in order, one
`onContentReady` call. -/
def FlowG.publishList (G : FlowG) (n : Nat) : List (Nat × Nat) :=
  (G.outputIfaces n).flatMap (fun o => (G.succsOf o).map (fun s => (o, s)))

/-- `Node.predecessors`: owner nodes of interface-level predecessors,
deduplicated in encounter order. -/
def FlowG.nodePreds (G : FlowG) (n : Nat) : List Nat :=
  ((G.nodeIfaceIdxs n).flatMap (fun i => (G.preds i).map (G.owner))).foldl
    (fun acc m => if m ∈ acc then acc else acc ++ [m]) []

/-- `G.nodes[n].failing` (false out of range). -/
def FlowG.failingAt (G : FlowG) (n : Nat) : Bool :=
  match G.nodes[n]? with
  | some d => d.failing
  | none => false

/-- `issubclass(node.__class__, InputNode)` by index. -/
def FlowG.isInputNodeAt (G : FlowG) (n : Nat) : Bool :=
  match G.nodes[n]? with
  | some d => d.isInputNode
  | none => false

/-- The nodes whose gate `Runner.start` signals: the loop
`for node in flow.inputNodes: if empty(node.predecessors): node.canRun.set()`
— `InputNode` instances without node-level predecessors, in `flow.nodes`
order. -/
def FlowG.runnerKickList (G : FlowG) : List Nat :=
  (List.range G.nodes.length).filter (fun n =>
    G.isInputNodeAt n && (G.nodePreds n).isEmpty)

/-- Modelled from the spec: the `startNodes` the claim refers to — "the set
of nodes with zero input-slot interfaces — the initial runnable set". This
definition follows the wording of the spec and exists only to be compared
with `runnerKickList`, the set the code actually signals. -/
def FlowG.specStartNodes (G : FlowG) : List Nat :=
  (List.range G.nodes.length).filter (fun n => (G.inputSlotIfaces n).isEmpty)

/-- Graph well-formedness: connectors join in-range interfaces and every
interface belongs to a registered node (guaranteed for graphs assembled
through `addNode`/`addConnector`). -/
def FlowG.WF (G : FlowG) : Prop :=
  (∀ e ∈ G.edges, e.1 < G.ifaces.length ∧ e.2 < G.ifaces.length)
  ∧ (∀ d ∈ G.ifaces, d.node < G.nodes.length)

/-- Phase of one worker thread along `Node.start`:
blocked in `canRun.wait()`; inside `run()`; notifying successors (with the
remaining notification list); returned; or terminated by an uncaught
exception from `run()`. -/
inductive WPhase
  | waiting
  | running
  | publishing (todo : List (Nat × Nat))
  | done
  | dead
deriving DecidableEq

/-- The interleaving state: the kick loop position of `Runner.start`, each
node's `canRun` event and worker phase, each interface's
`__readypredecessors` key set, each node's `__readyinterfaces` key set, and
the ghost instrumentation. -/
structure St where
  kickQueue : List Nat
  canRun : List Bool
  phase : List WPhase
  readypreds : List (List Nat)
  readyifaces : List (List Nat)
  runCount : List Nat
  notifyCount : List Nat
  delivered : List (Nat × Nat)
  failures : List Nat
deriving DecidableEq

def St.canRunAt (s : St) (n : Nat) : Bool := s.canRun.getD n false

def St.phaseAt (s : St) (n : Nat) : WPhase := s.phase.getD n .waiting

def St.rpAt (s : St) (i : Nat) : List Nat := s.readypreds.getD i []

def St.riAt (s : St) (n : Nat) : List Nat := s.readyifaces.getD n []

def St.runCountAt (s : St) (n : Nat) : Nat := s.runCount.getD n 0

def St.notifyCountAt (s : St) (i : Nat) : Nat := s.notifyCount.getD i 0

/-- Python dict key insertion: a repeated key leaves the key set unchanged. -/
def insertIfAbsent (l : List Nat) (x : Nat) : List Nat :=
  if x ∈ l then l else l ++ [x]

/-- `Interface.onContentReady(interface)` on the target `dst` with source
`src`: `load` copies the payload (no observable engine state), the source is
recorded in `__readypredecessors`, and when every predecessor has delivered,
`Node.onInterfaceReady` marks the interface ready on the owning node and —
once all input slot interfaces are ready — sets the node's `canRun` event.
CAVEAT: this runs the whole call chain as one atomic step, while the lockless
source allows a thread switch between each insert and its length check; the
coarse model is therefore used only for claims whose scenarios have a single
deliverer per interface or that are monotone in the interleaving (C1, C2,
C8). Claim C6, which is about the notification count under concurrent
fan-in, is settled over the statement-level model `StepF` below, where the
chain is split at every statement boundary. -/
def onContentReady (G : FlowG) (s : St) (dst src : Nat) : St :=
  if (G.preds dst).length ≤ (insertIfAbsent (s.rpAt dst) src).length then
    if (G.inputSlotIfaces (G.owner dst)).length ≤
        (insertIfAbsent (s.riAt (G.owner dst)) dst).length then
      { s with readypreds := s.readypreds.set dst (insertIfAbsent (s.rpAt dst) src),
               notifyCount := s.notifyCount.set dst (s.notifyCountAt dst + 1),
               readyifaces := s.readyifaces.set (G.owner dst)
                 (insertIfAbsent (s.riAt (G.owner dst)) dst),
               canRun := s.canRun.set (G.owner dst) true }
    else
      { s with readypreds := s.readypreds.set dst (insertIfAbsent (s.rpAt dst) src),
               notifyCount := s.notifyCount.set dst (s.notifyCountAt dst + 1),
               readyifaces := s.readyifaces.set (G.owner dst)
                 (insertIfAbsent (s.riAt (G.owner dst)) dst) }
  else
    { s with readypreds := s.readypreds.set dst (insertIfAbsent (s.rpAt dst) src) }

/-- The state in which `Runner.start` has just spawned all workers: every
worker blocked at `canRun.wait()`, every event unset, all bookkeeping empty,
the kick loop about to signal `runnerKickList`. -/
def initSt (G : FlowG) : St :=
  { kickQueue := G.runnerKickList
    canRun := List.replicate G.nodes.length false
    phase := List.replicate G.nodes.length .waiting
    readypreds := List.replicate G.ifaces.length []
    readyifaces := List.replicate G.nodes.length []
    runCount := List.replicate G.nodes.length 0
    notifyCount := List.replicate G.ifaces.length 0
    delivered := []
    failures := [] }

/-- One interleaved step of the scheduler kick loop or of a worker. -/
inductive Step (G : FlowG) : St → St → Prop
  | kick (n : Nat) (rest : List Nat) (s : St) :
      s.kickQueue = n :: rest →
      Step G s { s with kickQueue := rest, canRun := s.canRun.set n true }
  | beginRun (n : Nat) (s : St) :
      n < G.nodes.length →
      s.phaseAt n = .waiting →
      s.canRunAt n = true →
      Step G s { s with phase := s.phase.set n .running,
                        runCount := s.runCount.set n (s.runCountAt n + 1) }
  | endRunOk (n : Nat) (s : St) :
      n < G.nodes.length →
      s.phaseAt n = .running →
      G.failingAt n = false →
      Step G s { s with phase := s.phase.set n (.publishing (G.publishList n)),
                        canRun := s.canRun.set n false }
  | endRunFail (n : Nat) (s : St) :
      n < G.nodes.length →
      s.phaseAt n = .running →
      G.failingAt n = true →
      Step G s { s with phase := s.phase.set n .dead }
  | deliver (n src dst : Nat) (todo : List (Nat × Nat)) (s : St) :
      n < G.nodes.length →
      s.phaseAt n = .publishing ((src, dst) :: todo) →
      Step G s (onContentReady G
        { s with phase := s.phase.set n (.publishing todo),
                 delivered := s.delivered ++ [(src, dst)] } dst src)
  | finishPublish (n : Nat) (s : St) :
      n < G.nodes.length →
      s.phaseAt n = .publishing [] →
      Step G s { s with phase := s.phase.set n .done }

/-- States reachable by the scheduler run. -/
def Reach (G : FlowG) (s : St) : Prop :=
  Relation.ReflTransGen (Step G) (initSt G) s

/-- No step applies: every live worker is blocked (or all have
terminated). -/
def StuckSt (G : FlowG) (s : St) : Prop :=
  ∀ s', ¬ Step G s s'

/-- Executable enumeration of the successor states of `Step`. -/
def stepSuccs (G : FlowG) (s : St) : List St :=
  (match s.kickQueue with
   | [] => []
   | n :: rest => [{ s with kickQueue := rest, canRun := s.canRun.set n true }])
  ++ ((List.range G.nodes.length).filterMap (fun n =>
        if s.phaseAt n = .waiting ∧ s.canRunAt n = true then
          some { s with phase := s.phase.set n .running,
                        runCount := s.runCount.set n (s.runCountAt n + 1) }
        else none))
  ++ ((List.range G.nodes.length).filterMap (fun n =>
        if s.phaseAt n = .running ∧ G.failingAt n = false then
          some { s with phase := s.phase.set n (.publishing (G.publishList n)),
                        canRun := s.canRun.set n false }
        else none))
  ++ ((List.range G.nodes.length).filterMap (fun n =>
        if s.phaseAt n = .running ∧ G.failingAt n = true then
          some { s with phase := s.phase.set n .dead }
        else none))
  ++ ((List.range G.nodes.length).filterMap (fun n =>
        match s.phaseAt n with
        | .publishing ((src, dst) :: todo) =>
            some (onContentReady G
              { s with phase := s.phase.set n (.publishing todo),
                       delivered := s.delivered ++ [(src, dst)] } dst src)
        | _ => none))
  ++ ((List.range G.nodes.length).filterMap (fun n =>
        if s.phaseAt n = .publishing [] then
          some { s with phase := s.phase.set n .done }
        else none))

/-- Every enumerated successor is a real step. -/
theorem step_of_mem_stepSuccs {G : FlowG} {s s' : St}
    (h : s' ∈ stepSuccs G s) : Step G s s' := by
  unfold stepSuccs at h
  simp only [List.mem_append, List.mem_filterMap, List.mem_range] at h
  rcases h with ((((h | h) | h) | h) | h) | h
  · rcases hq : s.kickQueue with _ | ⟨n, rest⟩ <;> rw [hq] at h <;> simp at h
    rw [h]
    exact Step.kick n rest s hq
  · obtain ⟨n, hn, hsome⟩ := h
    split at hsome
    · rename_i hcond
      cases hsome
      exact Step.beginRun n s hn hcond.1 hcond.2
    · cases hsome
  · obtain ⟨n, hn, hsome⟩ := h
    split at hsome
    · rename_i hcond
      cases hsome
      exact Step.endRunOk n s hn hcond.1 hcond.2
    · cases hsome
  · obtain ⟨n, hn, hsome⟩ := h
    split at hsome
    · rename_i hcond
      cases hsome
      exact Step.endRunFail n s hn hcond.1 hcond.2
    · cases hsome
  · obtain ⟨n, hn, hsome⟩ := h
    split at hsome
    · rename_i src dst todo hphase
      cases hsome
      exact Step.deliver n src dst todo s hn hphase
    · cases hsome
  · obtain ⟨n, hn, hsome⟩ := h
    split at hsome
    · rename_i hcond
      cases hsome
      exact Step.finishPublish n s hn hcond
    · cases hsome

/-- Every step is enumerated. -/
theorem mem_stepSuccs_of_step {G : FlowG} {s s' : St}
    (h : Step G s s') : s' ∈ stepSuccs G s := by
  unfold stepSuccs
  simp only [List.mem_append, List.mem_filterMap, List.mem_range]
  cases h with
  | kick n rest s hq =>
      refine Or.inl (Or.inl (Or.inl (Or.inl (Or.inl ?_))))
      rw [hq]
      simp
  | beginRun n s hn hw hc =>
      refine Or.inl (Or.inl (Or.inl (Or.inl (Or.inr ⟨n, hn, ?_⟩))))
      rw [if_pos ⟨hw, hc⟩]
  | endRunOk n s hn hp hf =>
      refine Or.inl (Or.inl (Or.inl (Or.inr ⟨n, hn, ?_⟩)))
      rw [if_pos ⟨hp, hf⟩]
  | endRunFail n s hn hp hf =>
      refine Or.inl (Or.inl (Or.inr ⟨n, hn, ?_⟩))
      rw [if_pos ⟨hp, hf⟩]
  | deliver n src dst todo s hn hp =>
      refine Or.inl (Or.inr ⟨n, hn, ?_⟩)
      rw [hp]
  | finishPublish n s hn hp =>
      refine Or.inr ⟨n, hn, ?_⟩
      rw [if_pos hp]

/-- A step-closed list containing the initial state contains every
reachable state. -/
theorem reach_mem_of_closed {G : FlowG} {L : List St}
    (h0 : initSt G ∈ L) (hcl : ∀ s ∈ L, ∀ t ∈ stepSuccs G s, t ∈ L) :
    ∀ s, Reach G s → s ∈ L := by
  intro s h
  induction h with
  | refl => exact h0
  | tail _ hbc ih => exact hcl _ ih _ (mem_stepSuccs_of_step hbc)

/-- An empty successor enumeration means the state is stuck. -/
theorem stuck_of_stepSuccs_nil {G : FlowG} {s : St}
    (h : stepSuccs G s = []) : StuckSt G s := by
  intro s' hs
  have hm := mem_stepSuccs_of_step hs
  rw [h] at hm
  cases hm

/-- A stuck state has an empty successor enumeration. -/
theorem stepSuccs_nil_of_stuck {G : FlowG} {s : St}
    (h : StuckSt G s) : stepSuccs G s = [] := by
  cases hs : stepSuccs G s with
  | nil => rfl
  | cons t ts =>
      exact absurd (step_of_mem_stepSuccs (hs ▸ List.mem_cons_self t ts)) (h t)

/-- Breadth-first closure generator (correctness is irrelevant: the
step-closedness of its output is checked by `decide` where it is used). -/
def closureAux (G : FlowG) : Nat → List St → List St → List St
  | 0, acc, _ => acc
  | _ + 1, acc, [] => acc
  | fuel + 1, acc, s :: front =>
      let news := (stepSuccs G s).filter (fun t => decide (¬ t ∈ acc))
      closureAux G fuel (acc ++ news) (front ++ news)

/-- All states within `fuel` steps of the initial state. -/
def closureFrom (G : FlowG) (fuel : Nat) : List St :=
  closureAux G fuel [initSt G] [initSt G]

/-- `List.getD` after `List.set` at the written index. -/
theorem listGetDSetEq : ∀ (l : List α) (i : Nat) (a d : α),
    i < l.length → (l.set i a).getD i d = a
  | [], i, _, _, h => absurd h (by simp)
  | _ :: _, 0, _, _, _ => rfl
  | x :: xs, i + 1, a, d, h =>
      listGetDSetEq xs i a d (Nat.lt_of_succ_lt_succ (by simpa using h))

/-- `List.getD` after `List.set` at another index. -/
theorem listGetDSetNe : ∀ (l : List α) (i j : Nat) (a d : α),
    i ≠ j → (l.set i a).getD j d = l.getD j d
  | [], _, _, _, _, _ => rfl
  | _ :: _, 0, 0, _, _, h => absurd rfl h
  | _ :: _, 0, _ + 1, _, _, _ => rfl
  | _ :: _, _ + 1, 0, _, _, _ => rfl
  | _ :: xs, i + 1, j + 1, a, d, h =>
      listGetDSetNe xs i j a d (fun hij => h (by rw [hij]))

/-- `List.getD` on a replicated list. -/
theorem listGetDRepl : ∀ (k n : Nat) (a : α), (List.replicate k a).getD n a = a
  | 0, _, _ => rfl
  | _ + 1, 0, _ => rfl
  | k + 1, n + 1, a => listGetDRepl k n a

theorem canRunAt_init (G : FlowG) (n : Nat) : (initSt G).canRunAt n = false :=
  listGetDRepl _ _ _

theorem phaseAt_init (G : FlowG) (n : Nat) : (initSt G).phaseAt n = .waiting :=
  listGetDRepl _ _ _

theorem runCountAt_init (G : FlowG) (n : Nat) : (initSt G).runCountAt n = 0 :=
  listGetDRepl _ _ _

theorem notifyCountAt_init (G : FlowG) (i : Nat) : (initSt G).notifyCountAt i = 0 :=
  listGetDRepl _ _ _

/-- When `Runner.start` has no `InputNode` without predecessors to kick,
nothing ever runs: the spawn state is already stuck. -/
theorem initStuck_of_no_kicks (G : FlowG) (h : G.runnerKickList = []) :
    StuckSt G (initSt G) := by
  intro s' hs
  cases hs with
  | kick n rest s hq =>
      rw [show (initSt G).kickQueue = G.runnerKickList from rfl, h] at hq
      cases hq
  | beginRun n s hn hw hc => rw [canRunAt_init] at hc; cases hc
  | endRunOk n s hn hp hf => rw [phaseAt_init] at hp; cases hp
  | endRunFail n s hn hp hf => rw [phaseAt_init] at hp; cases hp
  | deliver n src dst todo s hn hp => rw [phaseAt_init] at hp; cases hp
  | finishPublish n s hn hp => rw [phaseAt_init] at hp; cases hp

/-! ## Claims C1 and C2 -/

/-- The readiness-propagation scenario of the claim with N1 *not* an
`InputNode` subclass: N1 has no input-slot interfaces (its only interface is
an output), `N1.out` feeds `N2.in`. -/
def chainCexFlow : FlowG :=
  { nodes := [⟨"n1", false, false⟩, ⟨"n2", false, false⟩]
    ifaces := [⟨0, "out", .output, .value, true⟩, ⟨1, "in", .input, .value, true⟩]
    edges := [(0, 1)] }

/-- Claim C1 counterexample: the claim promises that for *every* node N1
with no input-slot interfaces feeding N2, the scheduler runs N2 exactly
once. `Runner.start` signals only `InputNode` instances without
predecessors; with N1 a plain (non-`InputNode`) node the kick list is empty,
the spawn state is already stuck — a complete scheduler run in which N2 (and
N1) never ran. -/
theorem c1_counterexample :
    chainCexFlow.inputSlotIfaces 0 = []
    ∧ (0, 1) ∈ chainCexFlow.edges
    ∧ chainCexFlow.runnerKickList = []
    ∧ Reach chainCexFlow (initSt chainCexFlow)
    ∧ StuckSt chainCexFlow (initSt chainCexFlow)
    ∧ (initSt chainCexFlow).runCountAt 1 = 0
    ∧ (initSt chainCexFlow).runCountAt 0 = 0 :=
  ⟨rfl, by decide, rfl, Relation.ReflTransGen.refl,
   initStuck_of_no_kicks _ rfl, rfl, rfl⟩

/-- The scenario with N1 an `InputNode` without predecessors (the amended
premise): `ValueInputNode`-style producer feeding one consumer. -/
def chainFlow : FlowG :=
  { nodes := [⟨"n1", true, false⟩, ⟨"n2", false, false⟩]
    ifaces := [⟨0, "out", .output, .value, true⟩, ⟨1, "in", .input, .value, true⟩]
    edges := [(0, 1)] }

/-- All states reachable in the `chainFlow` scenario (12 states). -/
def chainClosure : List St := closureFrom chainFlow 100

set_option maxRecDepth 10000 in
theorem chainClosure_init : initSt chainFlow ∈ chainClosure := by decide

set_option maxRecDepth 10000 in
theorem chainClosure_closed :
    ∀ s ∈ chainClosure, ∀ t ∈ stepSuccs chainFlow s, t ∈ chainClosure := by decide

set_option maxRecDepth 10000 in
theorem chainClosure_prop :
    ∀ s ∈ chainClosure,
      s.runCountAt 1 ≤ 1
      ∧ (s.phaseAt 1 ≠ .waiting →
          0 ∈ s.rpAt 1 ∧ s.runCountAt 0 = 1
          ∧ (s.phaseAt 0 = .publishing [] ∨ s.phaseAt 0 = .done))
      ∧ (s.phaseAt 1 = .running → s.canRunAt 1 = true)
      ∧ (stepSuccs chainFlow s = [] → s.runCountAt 1 = 1 ∧ s.runCountAt 0 = 1) := by
  decide

/-- Claim C1 amended: in the scenario `N1.out → N2.in` with N1 an
`InputNode` without predecessors (the nodes `Runner.start` actually
signals), in every reachable state N2 has run at most once; whenever N2 has
left its readiness wait, N1's output has been delivered to N2's input
interface, N1's `run()` has completed (N1 is past its publish of that
delivery), and N2's gate was signaled before its `run()` began; and in every
stuck (complete) state N2 has run exactly once. -/
theorem c1_amended (s : St) (h : Reach chainFlow s) :
    s.runCountAt 1 ≤ 1
    ∧ (s.phaseAt 1 ≠ .waiting →
        0 ∈ s.rpAt 1 ∧ s.runCountAt 0 = 1
        ∧ (s.phaseAt 0 = .publishing [] ∨ s.phaseAt 0 = .done))
    ∧ (s.phaseAt 1 = .running → s.canRunAt 1 = true)
    ∧ (StuckSt chainFlow s → s.runCountAt 1 = 1) := by
  have hmem : s ∈ chainClosure :=
    reach_mem_of_closed chainClosure_init chainClosure_closed s h
  have hp := chainClosure_prop s hmem
  exact ⟨hp.1, hp.2.1, hp.2.2.1,
    fun hstuck => (hp.2.2.2 (stepSuccs_nil_of_stuck hstuck)).1⟩

/-- Witness for the amended claim C1 at the reachable spawn state. -/
theorem c1_witness :
    (initSt chainFlow).runCountAt 1 ≤ 1
    ∧ ((initSt chainFlow).phaseAt 1 ≠ .waiting →
        0 ∈ (initSt chainFlow).rpAt 1 ∧ (initSt chainFlow).runCountAt 0 = 1
        ∧ ((initSt chainFlow).phaseAt 0 = .publishing []
           ∨ (initSt chainFlow).phaseAt 0 = .done))
    ∧ ((initSt chainFlow).phaseAt 1 = .running → (initSt chainFlow).canRunAt 1 = true)
    ∧ (StuckSt chainFlow (initSt chainFlow) → (initSt chainFlow).runCountAt 1 = 1) :=
  c1_amended (initSt chainFlow) Relation.ReflTransGen.refl

/-- A single plain node with no interfaces: it has zero input-slot
interfaces (a member of the spec's `startNodes`) but is not an `InputNode`
instance. -/
def soloCexFlow : FlowG :=
  { nodes := [⟨"p", false, false⟩], ifaces := [], edges := [] }

/-- Claim C2 counterexample: the claim says the scheduler signals the gate
of *every* node with zero input-slot interfaces. The kick loop of
`Runner.start` iterates `flow.inputNodes` — only `InputNode` subclasses —
so the plain start node of `soloCexFlow` is never signaled: the spawn state
is stuck with its gate unset (and its worker never runs). -/
theorem c2_counterexample :
    soloCexFlow.specStartNodes = [0]
    ∧ soloCexFlow.inputSlotIfaces 0 = []
    ∧ soloCexFlow.runnerKickList = []
    ∧ StuckSt soloCexFlow (initSt soloCexFlow)
    ∧ (initSt soloCexFlow).canRunAt 0 = false
    ∧ (initSt soloCexFlow).runCountAt 0 = 0 :=
  ⟨rfl, rfl, rfl, initStuck_of_no_kicks _ rfl, rfl, rfl⟩

/-! ### Invariant machinery over the step relation -/

/-- `List.set` out of range is the identity. -/
theorem listSetOutOfRange : ∀ (l : List α) (i : Nat) (a : α),
    l.length ≤ i → l.set i a = l
  | [], _, _, _ => rfl
  | _ :: _, 0, _, h => absurd h (by simp)
  | x :: xs, i + 1, a, h => by
      simpa using listSetOutOfRange xs i a (by simpa using h)

theorem insertIfAbsent_ne_nil (l : List Nat) (x : Nat) : insertIfAbsent l x ≠ [] := by
  unfold insertIfAbsent
  split
  · exact List.ne_nil_of_mem (by assumption)
  · simp

/-- The three possible outcomes of `onContentReady`, with the record update
each produces. -/
theorem ocr_cases (G : FlowG) (s : St) (dst src : Nat) :
    (¬ (G.preds dst).length ≤ (insertIfAbsent (s.rpAt dst) src).length
      ∧ onContentReady G s dst src =
        { s with readypreds := s.readypreds.set dst (insertIfAbsent (s.rpAt dst) src) })
    ∨ ((G.preds dst).length ≤ (insertIfAbsent (s.rpAt dst) src).length
      ∧ ¬ (G.inputSlotIfaces (G.owner dst)).length ≤
            (insertIfAbsent (s.riAt (G.owner dst)) dst).length
      ∧ onContentReady G s dst src =
        { s with readypreds := s.readypreds.set dst (insertIfAbsent (s.rpAt dst) src),
                 notifyCount := s.notifyCount.set dst (s.notifyCountAt dst + 1),
                 readyifaces := s.readyifaces.set (G.owner dst)
                   (insertIfAbsent (s.riAt (G.owner dst)) dst) })
    ∨ ((G.preds dst).length ≤ (insertIfAbsent (s.rpAt dst) src).length
      ∧ (G.inputSlotIfaces (G.owner dst)).length ≤
            (insertIfAbsent (s.riAt (G.owner dst)) dst).length
      ∧ onContentReady G s dst src =
        { s with readypreds := s.readypreds.set dst (insertIfAbsent (s.rpAt dst) src),
                 notifyCount := s.notifyCount.set dst (s.notifyCountAt dst + 1),
                 readyifaces := s.readyifaces.set (G.owner dst)
                   (insertIfAbsent (s.riAt (G.owner dst)) dst),
                 canRun := s.canRun.set (G.owner dst) true }) := by
  unfold onContentReady
  by_cases h1 : (G.preds dst).length ≤ (insertIfAbsent (s.rpAt dst) src).length
  · by_cases h2 : (G.inputSlotIfaces (G.owner dst)).length ≤
        (insertIfAbsent (s.riAt (G.owner dst)) dst).length
    · exact Or.inr (Or.inr ⟨h1, h2, by rw [if_pos h1, if_pos h2]⟩)
    · exact Or.inr (Or.inl ⟨h1, h2, by rw [if_pos h1, if_neg h2]⟩)
  · exact Or.inl ⟨h1, by rw [if_neg h1]⟩

/-- The bookkeeping lists keep the sizes `Runner.start` allocated. -/
def LenInv (G : FlowG) (s : St) : Prop :=
  s.canRun.length = G.nodes.length
  ∧ s.phase.length = G.nodes.length
  ∧ s.readypreds.length = G.ifaces.length
  ∧ s.readyifaces.length = G.nodes.length
  ∧ s.runCount.length = G.nodes.length
  ∧ s.notifyCount.length = G.ifaces.length

theorem lenInv_init (G : FlowG) : LenInv G (initSt G) := by
  refine ⟨?_, ?_, ?_, ?_, ?_, ?_⟩ <;> simp [initSt]

theorem lenInv_ocr {G : FlowG} {s : St} {dst src : Nat}
    (hl : LenInv G s) : LenInv G (onContentReady G s dst src) := by
  obtain ⟨h1, h2, h3, h4, h5, h6⟩ := hl
  rcases ocr_cases G s dst src with ⟨_, heq⟩ | ⟨_, _, heq⟩ | ⟨_, _, heq⟩ <;>
    rw [heq] <;>
    exact ⟨by simp [h1], by simp [h2], by simp [h3], by simp [h4],
           by simp [h5], by simp [h6]⟩

theorem lenInv_step {G : FlowG} {s s' : St}
    (h : Step G s s') (hl : LenInv G s) : LenInv G s' := by
  obtain ⟨h1, h2, h3, h4, h5, h6⟩ := hl
  cases h with
  | kick n rest s hq => exact ⟨by simp [h1], h2, h3, h4, h5, h6⟩
  | beginRun n s hn hw hc => exact ⟨h1, by simp [h2], h3, h4, by simp [h5], h6⟩
  | endRunOk n s hn hp hf => exact ⟨by simp [h1], by simp [h2], h3, h4, h5, h6⟩
  | endRunFail n s hn hp hf => exact ⟨h1, by simp [h2], h3, h4, h5, h6⟩
  | deliver n src dst todo s hn hp =>
      exact lenInv_ocr ⟨h1, by simp [h2], h3, h4, h5, h6⟩
  | finishPublish n s hn hp => exact ⟨h1, by simp [h2], h3, h4, h5, h6⟩

theorem mem_kickList_iff (G : FlowG) (n : Nat) :
    n ∈ G.runnerKickList ↔
      n < G.nodes.length ∧ G.isInputNodeAt n = true ∧ G.nodePreds n = [] := by
  unfold FlowG.runnerKickList
  simp [List.mem_filter, Bool.and_eq_true, List.isEmpty_iff, and_assoc]

theorem kickList_lt {G : FlowG} {n : Nat} (h : n ∈ G.runnerKickList) :
    n < G.nodes.length :=
  ((mem_kickList_iff G n).mp h).1

/-- A set-to-true never turns an event off. -/
theorem canRun_set_true_mono {l : List Bool} {own m : Nat}
    (h : l.getD m false = true) : (l.set own true).getD m false = true := by
  by_cases hmo : m = own
  · subst hmo
    by_cases hr : m < l.length
    · rw [listGetDSetEq _ _ _ _ hr]
    · rw [listSetOutOfRange _ _ _ (Nat.le_of_not_lt hr)]
      exact h
  · rw [listGetDSetNe _ _ _ _ _ (fun he => hmo he.symm)]
    exact h

/-- Dynamic invariant behind claim C2: the kick queue only ever holds
members of `runnerKickList`; a set gate was either signaled by the kick loop
or follows a readiness notification; and every kick-list member is pending,
signaled, or already past its wait. -/
def InvC2 (G : FlowG) (s : St) : Prop :=
  s.kickQueue ⊆ G.runnerKickList
  ∧ (∀ n, s.canRunAt n = true → n ∈ G.runnerKickList ∨ s.riAt n ≠ [])
  ∧ (∀ n, n ∈ G.runnerKickList →
      n ∈ s.kickQueue ∨ s.canRunAt n = true ∨ s.phaseAt n ≠ .waiting)

theorem invC2_init (G : FlowG) : InvC2 G (initSt G) := by
  refine ⟨fun x hx => hx, ?_, ?_⟩
  · intro n hc
    rw [canRunAt_init] at hc
    cases hc
  · intro n hn
    exact Or.inl hn

theorem invC2_ocr {G : FlowG} {s : St} {dst src : Nat}
    (hl : LenInv G s) (hi : InvC2 G s) : InvC2 G (onContentReady G s dst src) := by
  obtain ⟨hsub, hcr, hkl⟩ := hi
  rcases ocr_cases G s dst src with ⟨_, heq⟩ | ⟨_, _, heq⟩ | ⟨_, _, heq⟩ <;> rw [heq]
  · exact ⟨hsub, hcr, hkl⟩
  · refine ⟨hsub, ?_, ?_⟩
    · intro m hm
      rcases hcr m hm with h | h
      · exact Or.inl h
      · right
        by_cases hmo : m = G.owner dst
        · subst hmo
          show (s.readyifaces.set (G.owner dst) _).getD (G.owner dst) [] ≠ []
          by_cases hr : G.owner dst < s.readyifaces.length
          · rw [listGetDSetEq _ _ _ _ hr]
            exact insertIfAbsent_ne_nil _ _
          · rw [listSetOutOfRange _ _ _ (Nat.le_of_not_lt hr)]
            exact h
        · show (s.readyifaces.set (G.owner dst) _).getD m [] ≠ []
          rw [listGetDSetNe _ _ _ _ _ (fun he => hmo he.symm)]
          exact h
    · intro m hm
      exact hkl m hm
  · refine ⟨hsub, ?_, ?_⟩
    · intro m hm
      by_cases hmo : m = G.owner dst
      · subst hmo
        right
        show (s.readyifaces.set (G.owner dst) _).getD (G.owner dst) [] ≠ []
        by_cases hr : G.owner dst < s.readyifaces.length
        · rw [listGetDSetEq _ _ _ _ hr]
          exact insertIfAbsent_ne_nil _ _
        · rw [listSetOutOfRange _ _ _ (Nat.le_of_not_lt hr)]
          have hcrm : s.canRunAt (G.owner dst) = true := by
            have hr2 : s.canRun.length ≤ G.owner dst := by
              rw [hl.1, ← hl.2.2.2.1]
              exact Nat.le_of_not_lt hr
            show s.canRun.getD (G.owner dst) false = true
            rw [← listSetOutOfRange s.canRun (G.owner dst) true hr2]
            exact hm
          rcases hcr (G.owner dst) hcrm with h | h
          · exact absurd ((mem_kickList_iff G (G.owner dst)).mp h).1
              (by rw [← hl.2.2.2.1]; exact hr)
          · exact h
      · have hcrm : s.canRunAt m = true := by
          show s.canRun.getD m false = true
          rw [← listGetDSetNe s.canRun (G.owner dst) m true false
            (fun he => hmo he.symm)]
          exact hm
        rcases hcr m hcrm with h | h
        · exact Or.inl h
        · right
          show (s.readyifaces.set (G.owner dst) _).getD m [] ≠ []
          rw [listGetDSetNe _ _ _ _ _ (fun he => hmo he.symm)]
          exact h
    · intro m hm
      rcases hkl m hm with h | h | h
      · exact Or.inl h
      · exact Or.inr (Or.inl (canRun_set_true_mono h))
      · exact Or.inr (Or.inr h)

theorem invC2_step {G : FlowG} {s s' : St}
    (h : Step G s s') (hl : LenInv G s) (hi : InvC2 G s) : InvC2 G s' := by
  obtain ⟨hsub, hcr, hkl⟩ := hi
  cases h with
  | kick n rest s hq =>
      have hnk : n ∈ G.runnerKickList := hsub (by rw [hq]; exact List.mem_cons_self n rest)
      refine ⟨fun x hx => hsub (by rw [hq]; exact List.mem_cons_of_mem n hx), ?_, ?_⟩
      · intro m hm
        by_cases hmn : m = n
        · subst hmn
          exact Or.inl hnk
        · refine hcr m ?_
          show s.canRun.getD m false = true
          rw [← listGetDSetNe s.canRun n m true false (fun he => hmn he.symm)]
          exact hm
      · intro m hm
        by_cases hmn : m = n
        · subst hmn
          right
          left
          show (s.canRun.set m true).getD m false = true
          exact listGetDSetEq _ _ _ _ (by rw [hl.1]; exact kickList_lt hm)
        · rcases hkl m hm with h | h | h
          · rw [hq] at h
            rcases List.mem_cons.mp h with he | he
            · exact absurd he hmn
            · exact Or.inl he
          · refine Or.inr (Or.inl ?_)
            show (s.canRun.set n true).getD m false = true
            rw [listGetDSetNe _ _ _ _ _ (fun he => hmn he.symm)]
            exact h
          · exact Or.inr (Or.inr h)
  | beginRun n s hn hw hc =>
      refine ⟨hsub, hcr, ?_⟩
      intro m hm
      by_cases hmn : m = n
      · subst hmn
        refine Or.inr (Or.inr ?_)
        show (s.phase.set m .running).getD m .waiting ≠ .waiting
        rw [listGetDSetEq _ _ _ _ (by rw [hl.2.1]; exact hn)]
        simp
      · rcases hkl m hm with h | h | h
        · exact Or.inl h
        · exact Or.inr (Or.inl h)
        · refine Or.inr (Or.inr ?_)
          show (s.phase.set n .running).getD m .waiting ≠ .waiting
          rw [listGetDSetNe _ _ _ _ _ (fun he => hmn he.symm)]
          exact h
  | endRunOk n s hn hp hf =>
      refine ⟨hsub, ?_, ?_⟩
      · intro m hm
        by_cases hmn : m = n
        · subst hmn
          have hz : (s.canRun.set m false).getD m false = false :=
            listGetDSetEq _ _ _ _ (by rw [hl.1]; exact hn)
          have hm' : (s.canRun.set m false).getD m false = true := hm
          rw [hz] at hm'
          cases hm'
        · refine hcr m ?_
          show s.canRun.getD m false = true
          rw [← listGetDSetNe s.canRun n m false false (fun he => hmn he.symm)]
          exact hm
      · intro m hm
        by_cases hmn : m = n
        · subst hmn
          refine Or.inr (Or.inr ?_)
          show (s.phase.set m _).getD m .waiting ≠ .waiting
          rw [listGetDSetEq _ _ _ _ (by rw [hl.2.1]; exact hn)]
          simp
        · rcases hkl m hm with h | h | h
          · exact Or.inl h
          · refine Or.inr (Or.inl ?_)
            show (s.canRun.set n false).getD m false = true
            rw [listGetDSetNe _ _ _ _ _ (fun he => hmn he.symm)]
            exact h
          · refine Or.inr (Or.inr ?_)
            show (s.phase.set n _).getD m .waiting ≠ .waiting
            rw [listGetDSetNe _ _ _ _ _ (fun he => hmn he.symm)]
            exact h
  | endRunFail n s hn hp hf =>
      refine ⟨hsub, hcr, ?_⟩
      intro m hm
      by_cases hmn : m = n
      · subst hmn
        refine Or.inr (Or.inr ?_)
        show (s.phase.set m .dead).getD m .waiting ≠ .waiting
        rw [listGetDSetEq _ _ _ _ (by rw [hl.2.1]; exact hn)]
        simp
      · rcases hkl m hm with h | h | h
        · exact Or.inl h
        · exact Or.inr (Or.inl h)
        · refine Or.inr (Or.inr ?_)
          show (s.phase.set n .dead).getD m .waiting ≠ .waiting
          rw [listGetDSetNe _ _ _ _ _ (fun he => hmn he.symm)]
          exact h
  | deliver n src dst todo s hn hp =>
      have hl1 : LenInv G { s with phase := s.phase.set n (.publishing todo),
                                   delivered := s.delivered ++ [(src, dst)] } :=
        ⟨hl.1, by simp [hl.2.1], hl.2.2.1, hl.2.2.2.1, hl.2.2.2.2.1, hl.2.2.2.2.2⟩
      refine invC2_ocr hl1 ⟨hsub, hcr, ?_⟩
      intro m hm
      by_cases hmn : m = n
      · subst hmn
        refine Or.inr (Or.inr ?_)
        show (s.phase.set m _).getD m .waiting ≠ .waiting
        rw [listGetDSetEq _ _ _ _ (by rw [hl.2.1]; exact hn)]
        simp
      · rcases hkl m hm with h | h | h
        · exact Or.inl h
        · exact Or.inr (Or.inl h)
        · refine Or.inr (Or.inr ?_)
          show (s.phase.set n _).getD m .waiting ≠ .waiting
          rw [listGetDSetNe _ _ _ _ _ (fun he => hmn he.symm)]
          exact h
  | finishPublish n s hn hp =>
      refine ⟨hsub, hcr, ?_⟩
      intro m hm
      by_cases hmn : m = n
      · subst hmn
        refine Or.inr (Or.inr ?_)
        show (s.phase.set m .done).getD m .waiting ≠ .waiting
        rw [listGetDSetEq _ _ _ _ (by rw [hl.2.1]; exact hn)]
        simp
      · rcases hkl m hm with h | h | h
        · exact Or.inl h
        · exact Or.inr (Or.inl h)
        · refine Or.inr (Or.inr ?_)
          show (s.phase.set n .done).getD m .waiting ≠ .waiting
          rw [listGetDSetNe _ _ _ _ _ (fun he => hmn he.symm)]
          exact h

theorem lenInv_and_invC2_reach {G : FlowG} {s : St} (h : Reach G s) :
    LenInv G s ∧ InvC2 G s := by
  induction h with
  | refl => exact ⟨lenInv_init G, invC2_init G⟩
  | tail _ hbc ih => exact ⟨lenInv_step hbc ih.1, invC2_step hbc ih.1 ih.2⟩

/-- Claim C2 amended: the external gate signals `Runner.start` gives go
precisely to the `InputNode` instances without node-level predecessors (its
kick list), not to the spec's `startNodes`; every other set gate stems from
a readiness notification; and every kick-list member is eventually signaled
(in every reachable state it is pending in the queue, signaled, or already
past its wait). -/
theorem c2_amended (G : FlowG) (s : St) (h : Reach G s) :
    (∀ n, s.canRunAt n = true → n ∈ G.runnerKickList ∨ s.riAt n ≠ [])
    ∧ (∀ n, n ∈ G.runnerKickList →
        n ∈ s.kickQueue ∨ s.canRunAt n = true ∨ s.phaseAt n ≠ .waiting)
    ∧ (∀ n, n ∈ G.runnerKickList ↔
        n < G.nodes.length ∧ G.isInputNodeAt n = true ∧ G.nodePreds n = [])
    ∧ (initSt G).kickQueue = G.runnerKickList := by
  obtain ⟨-, hsub, hcr, hkl⟩ := lenInv_and_invC2_reach h
  exact ⟨hcr, hkl, fun n => mem_kickList_iff G n, rfl⟩

/-- Witness for the amended claim C2 on the two-node chain scenario. -/
theorem c2_witness :
    (∀ n, (initSt chainFlow).canRunAt n = true →
        n ∈ chainFlow.runnerKickList ∨ (initSt chainFlow).riAt n ≠ [])
    ∧ (∀ n, n ∈ chainFlow.runnerKickList →
        n ∈ (initSt chainFlow).kickQueue ∨ (initSt chainFlow).canRunAt n = true
        ∨ (initSt chainFlow).phaseAt n ≠ .waiting)
    ∧ (∀ n, n ∈ chainFlow.runnerKickList ↔
        n < chainFlow.nodes.length ∧ chainFlow.isInputNodeAt n = true
        ∧ chainFlow.nodePreds n = [])
    ∧ (initSt chainFlow).kickQueue = chainFlow.runnerKickList :=
  c2_amended chainFlow (initSt chainFlow) Relation.ReflTransGen.refl

/-! ## Claim C8: node faults -/

/-- Sources appearing in a node's publish list belong to that node. -/
theorem mem_publishList_owner {G : FlowG} {n : Nat} {e : Nat × Nat}
    (he : e ∈ G.publishList n) : G.owner e.1 = n := by
  unfold FlowG.publishList at he
  rw [List.mem_flatMap] at he
  obtain ⟨o, ho, hmap⟩ := he
  rw [List.mem_map] at hmap
  obtain ⟨t, _, heq⟩ := hmap
  unfold FlowG.outputIfaces FlowG.nodeIfaceIdxs at ho
  rw [List.mem_filter] at ho
  rw [List.mem_filter] at ho
  have := ho.1.2
  rw [beq_iff_eq] at this
  rw [← heq]
  exact this

/-- Invariant behind claim C8: nothing is ever recorded in a failure set
(there is none in the source); a worker that has not reached its publish
loop — in particular a dead one — has delivered nothing; remaining publish
work belongs to the publishing node; dead workers are exactly faulted
ones. -/
def InvC8 (G : FlowG) (s : St) : Prop :=
  s.failures = []
  ∧ (∀ n l, s.phaseAt n = .publishing l → ∀ e ∈ l, G.owner e.1 = n)
  ∧ (∀ n, (s.phaseAt n = .waiting ∨ s.phaseAt n = .running ∨ s.phaseAt n = .dead) →
      ∀ e ∈ s.delivered, G.owner e.1 ≠ n)
  ∧ (∀ n, s.phaseAt n = .dead → G.failingAt n = true)

theorem invC8_init (G : FlowG) : InvC8 G (initSt G) := by
  refine ⟨rfl, ?_, ?_, ?_⟩
  · intro n l hl
    rw [phaseAt_init] at hl
    cases hl
  · intro n _ e he
    cases he
  · intro n hd
    rw [phaseAt_init] at hd
    cases hd

/-- `List.getD` after `List.set` at an in-range index, as one case split. -/
theorem getDSet (l : List α) (n m : Nat) (a d : α) (hn : n < l.length) :
    (l.set n a).getD m d = if m = n then a else l.getD m d := by
  by_cases h : m = n
  · subst h
    rw [if_pos rfl]
    exact listGetDSetEq _ _ _ _ hn
  · rw [if_neg h]
    exact listGetDSetNe _ _ _ _ _ (fun he => h he.symm)

theorem invC8_ocr {G : FlowG} {s : St} {dst src : Nat}
    (hi : InvC8 G s) : InvC8 G (onContentReady G s dst src) := by
  rcases ocr_cases G s dst src with ⟨_, heq⟩ | ⟨_, _, heq⟩ | ⟨_, _, heq⟩ <;> rw [heq] <;>
    exact hi

theorem invC8_step {G : FlowG} {s s' : St}
    (h : Step G s s') (hl : LenInv G s) (hi : InvC8 G s) : InvC8 G s' := by
  obtain ⟨hf, hpub, hnod, hdead⟩ := hi
  cases h with
  | kick n rest s hq => exact ⟨hf, hpub, hnod, hdead⟩
  | beginRun n s hn hw hc =>
      have hnp : n < s.phase.length := by rw [hl.2.1]; exact hn
      refine ⟨hf, ?_, ?_, ?_⟩
      · intro m l hml
        have hml2 : (s.phase.set n .running).getD m .waiting = .publishing l := hml
        rw [getDSet _ _ _ _ _ hnp] at hml2
        by_cases hmn : m = n
        · rw [if_pos hmn] at hml2
          cases hml2
        · rw [if_neg hmn] at hml2
          exact hpub m l hml2
      · intro m hm e he
        by_cases hmn : m = n
        · subst hmn
          exact hnod m (Or.inl hw) e he
        · have hm2 : (s.phase.set n .running).getD m .waiting = .waiting
              ∨ (s.phase.set n .running).getD m .waiting = .running
              ∨ (s.phase.set n .running).getD m .waiting = .dead := hm
          rw [getDSet _ _ _ _ _ hnp, if_neg hmn] at hm2
          exact hnod m hm2 e he
      · intro m hm
        have hm2 : (s.phase.set n .running).getD m .waiting = .dead := hm
        rw [getDSet _ _ _ _ _ hnp] at hm2
        by_cases hmn : m = n
        · rw [if_pos hmn] at hm2
          cases hm2
        · rw [if_neg hmn] at hm2
          exact hdead m hm2
  | endRunOk n s hn hp hf2 =>
      have hnp : n < s.phase.length := by rw [hl.2.1]; exact hn
      refine ⟨hf, ?_, ?_, ?_⟩
      · intro m l hml
        have hml2 : (s.phase.set n (.publishing (G.publishList n))).getD m .waiting
            = .publishing l := hml
        rw [getDSet _ _ _ _ _ hnp] at hml2
        by_cases hmn : m = n
        · rw [if_pos hmn] at hml2
          cases hml2
          intro e he
          rw [hmn]
          exact mem_publishList_owner he
        · rw [if_neg hmn] at hml2
          exact hpub m l hml2
      · intro m hm e he
        by_cases hmn : m = n
        · subst hmn
          have hm2 : (s.phase.set m (.publishing (G.publishList m))).getD m .waiting
                = .waiting
              ∨ (s.phase.set m (.publishing (G.publishList m))).getD m .waiting
                = .running
              ∨ (s.phase.set m (.publishing (G.publishList m))).getD m .waiting
                = .dead := hm
          rw [getDSet _ _ _ _ _ hnp, if_pos rfl] at hm2
          rcases hm2 with hm2 | hm2 | hm2 <;> cases hm2
        · have hm2 : (s.phase.set n (.publishing (G.publishList n))).getD m .waiting
                = .waiting
              ∨ (s.phase.set n (.publishing (G.publishList n))).getD m .waiting
                = .running
              ∨ (s.phase.set n (.publishing (G.publishList n))).getD m .waiting
                = .dead := hm
          rw [getDSet _ _ _ _ _ hnp, if_neg hmn] at hm2
          exact hnod m hm2 e he
      · intro m hm
        have hm2 : (s.phase.set n (.publishing (G.publishList n))).getD m .waiting
            = .dead := hm
        rw [getDSet _ _ _ _ _ hnp] at hm2
        by_cases hmn : m = n
        · rw [if_pos hmn] at hm2
          cases hm2
        · rw [if_neg hmn] at hm2
          exact hdead m hm2
  | endRunFail n s hn hp hf2 =>
      have hnp : n < s.phase.length := by rw [hl.2.1]; exact hn
      refine ⟨hf, ?_, ?_, ?_⟩
      · intro m l hml
        have hml2 : (s.phase.set n .dead).getD m .waiting = .publishing l := hml
        rw [getDSet _ _ _ _ _ hnp] at hml2
        by_cases hmn : m = n
        · rw [if_pos hmn] at hml2
          cases hml2
        · rw [if_neg hmn] at hml2
          exact hpub m l hml2
      · intro m hm e he
        by_cases hmn : m = n
        · subst hmn
          exact hnod m (Or.inr (Or.inl hp)) e he
        · have hm2 : (s.phase.set n .dead).getD m .waiting = .waiting
              ∨ (s.phase.set n .dead).getD m .waiting = .running
              ∨ (s.phase.set n .dead).getD m .waiting = .dead := hm
          rw [getDSet _ _ _ _ _ hnp, if_neg hmn] at hm2
          exact hnod m hm2 e he
      · intro m hm
        by_cases hmn : m = n
        · subst hmn
          exact hf2
        · have hm2 : (s.phase.set n .dead).getD m .waiting = .dead := hm
          rw [getDSet _ _ _ _ _ hnp, if_neg hmn] at hm2
          exact hdead m hm2
  | deliver n src dst todo s hn hp =>
      have hnp : n < s.phase.length := by rw [hl.2.1]; exact hn
      refine invC8_ocr ⟨hf, ?_, ?_, ?_⟩
      · intro m l hml
        have hml2 : (s.phase.set n (.publishing todo)).getD m .waiting
            = .publishing l := hml
        rw [getDSet _ _ _ _ _ hnp] at hml2
        by_cases hmn : m = n
        · rw [if_pos hmn] at hml2
          cases hml2
          intro e he
          rw [hmn]
          exact hpub n ((src, dst) :: todo) hp e (List.mem_cons_of_mem _ he)
        · rw [if_neg hmn] at hml2
          exact hpub m l hml2
      · intro m hm e he
        by_cases hmn : m = n
        · subst hmn
          have hm2 : (s.phase.set m (.publishing todo)).getD m .waiting = .waiting
              ∨ (s.phase.set m (.publishing todo)).getD m .waiting = .running
              ∨ (s.phase.set m (.publishing todo)).getD m .waiting = .dead := hm
          rw [getDSet _ _ _ _ _ hnp, if_pos rfl] at hm2
          rcases hm2 with hm2 | hm2 | hm2 <;> cases hm2
        · have hm2 : (s.phase.set n (.publishing todo)).getD m .waiting = .waiting
              ∨ (s.phase.set n (.publishing todo)).getD m .waiting = .running
              ∨ (s.phase.set n (.publishing todo)).getD m .waiting = .dead := hm
          rw [getDSet _ _ _ _ _ hnp, if_neg hmn] at hm2
          rcases List.mem_append.mp he with he | he
          · exact hnod m hm2 e he
          · rw [List.mem_singleton.mp he]
            have hown : G.owner src = n :=
              hpub n ((src, dst) :: todo) hp (src, dst) (List.mem_cons_self _ _)
            rw [hown]
            exact fun hc => hmn hc.symm
      · intro m hm
        have hm2 : (s.phase.set n (.publishing todo)).getD m .waiting = .dead := hm
        rw [getDSet _ _ _ _ _ hnp] at hm2
        by_cases hmn : m = n
        · rw [if_pos hmn] at hm2
          cases hm2
        · rw [if_neg hmn] at hm2
          exact hdead m hm2
  | finishPublish n s hn hp =>
      have hnp : n < s.phase.length := by rw [hl.2.1]; exact hn
      refine ⟨hf, ?_, ?_, ?_⟩
      · intro m l hml
        have hml2 : (s.phase.set n .done).getD m .waiting = .publishing l := hml
        rw [getDSet _ _ _ _ _ hnp] at hml2
        by_cases hmn : m = n
        · rw [if_pos hmn] at hml2
          cases hml2
        · rw [if_neg hmn] at hml2
          exact hpub m l hml2
      · intro m hm e he
        by_cases hmn : m = n
        · subst hmn
          have hm2 : (s.phase.set m .done).getD m .waiting = .waiting
              ∨ (s.phase.set m .done).getD m .waiting = .running
              ∨ (s.phase.set m .done).getD m .waiting = .dead := hm
          rw [getDSet _ _ _ _ _ hnp, if_pos rfl] at hm2
          rcases hm2 with hm2 | hm2 | hm2 <;> cases hm2
        · have hm2 : (s.phase.set n .done).getD m .waiting = .waiting
              ∨ (s.phase.set n .done).getD m .waiting = .running
              ∨ (s.phase.set n .done).getD m .waiting = .dead := hm
          rw [getDSet _ _ _ _ _ hnp, if_neg hmn] at hm2
          exact hnod m hm2 e he
      · intro m hm
        have hm2 : (s.phase.set n .done).getD m .waiting = .dead := hm
        rw [getDSet _ _ _ _ _ hnp] at hm2
        by_cases hmn : m = n
        · rw [if_pos hmn] at hm2
          cases hm2
        · rw [if_neg hmn] at hm2
          exact hdead m hm2

theorem invC8_reach {G : FlowG} {s : St} (h : Reach G s) : InvC8 G s := by
  induction h with
  | refl => exact invC8_init G
  | tail hab hbc ih =>
      exact invC8_step hbc (lenInv_and_invC2_reach hab).1 ih

/-- Claim C8 amended: a fault in `run()` silently terminates only that
node's worker: nothing is ever recorded against the node (`flow.py` has no
failure set and the scheduler reports nothing after the join), the dead
worker is exactly a faulted one, and it has delivered nothing to its
successors — so any successor waiting on it blocks forever while unrelated
workers and the scheduler itself are unaffected. -/
theorem c8_amended (G : FlowG) (s : St) (h : Reach G s) :
    s.failures = []
    ∧ (∀ n, s.phaseAt n = .dead →
        G.failingAt n = true ∧ ∀ e ∈ s.delivered, G.owner e.1 ≠ n) := by
  obtain ⟨hf, _, hnod, hdead⟩ := invC8_reach h
  exact ⟨hf, fun n hd => ⟨hdead n hd, hnod n (Or.inr (Or.inr hd)) ⟩⟩

/-- One `InputNode` whose `run()` raises. -/
def failCexFlow : FlowG :=
  { nodes := [⟨"bad", true, true⟩], ifaces := [], edges := [] }

/-- Complete run of `failCexFlow`: kicked, started, faulted. -/
def failCexFinal : St :=
  ⟨[], [true], [.dead], [], [[]], [1], [], [], []⟩

theorem failCex_reach : Reach failCexFlow failCexFinal := by
  have h1 : Step failCexFlow (initSt failCexFlow)
      ⟨[], [true], [.waiting], [], [[]], [0], [], [], []⟩ :=
    Step.kick 0 [] (initSt failCexFlow) rfl
  have h2 : Step failCexFlow ⟨[], [true], [.waiting], [], [[]], [0], [], [], []⟩
      ⟨[], [true], [.running], [], [[]], [1], [], [], []⟩ :=
    Step.beginRun 0 _ (by decide) rfl rfl
  have h3 : Step failCexFlow ⟨[], [true], [.running], [], [[]], [1], [], [], []⟩
      failCexFinal :=
    Step.endRunFail 0 _ (by decide) rfl rfl
  exact ((Relation.ReflTransGen.refl.tail h1).tail h2).tail h3

/-- Claim C8 counterexample: the claim says a fault is caught, recorded
against the node, and that after joining all workers the scheduler reports
the set of failed nodes. Here is a complete scheduler run (the final state
is stuck: every worker has terminated, so the join-all returns) in which the
only node faulted, yet the recorded failure set is empty — nothing in
`flow.py` records or reports anything. -/
theorem c8_counterexample :
    failCexFlow.failingAt 0 = true
    ∧ Reach failCexFlow failCexFinal
    ∧ StuckSt failCexFlow failCexFinal
    ∧ failCexFinal.phaseAt 0 = .dead
    ∧ failCexFinal.runCountAt 0 = 1
    ∧ failCexFinal.failures = [] :=
  ⟨rfl, failCex_reach, stuck_of_stepSuccs_nil (by decide), rfl, rfl, rfl⟩

/-- Two independent `InputNode`s, the first faulting. -/
def failPairFlow : FlowG :=
  { nodes := [⟨"bad", true, true⟩, ⟨"ok", true, false⟩], ifaces := [], edges := [] }

/-- Complete run of `failPairFlow`: node 0 faulted, node 1 finished. -/
def failPairFinal : St :=
  ⟨[], [true, false], [.dead, .done], [], [[], []], [1, 1], [], [], []⟩

theorem failPair_reach : Reach failPairFlow failPairFinal := by
  have h1 : Step failPairFlow (initSt failPairFlow)
      ⟨[1], [true, false], [.waiting, .waiting], [], [[], []], [0, 0], [], [], []⟩ :=
    Step.kick 0 [1] (initSt failPairFlow) rfl
  have h2 : Step failPairFlow
      ⟨[1], [true, false], [.waiting, .waiting], [], [[], []], [0, 0], [], [], []⟩
      ⟨[], [true, true], [.waiting, .waiting], [], [[], []], [0, 0], [], [], []⟩ :=
    Step.kick 1 [] _ rfl
  have h3 : Step failPairFlow
      ⟨[], [true, true], [.waiting, .waiting], [], [[], []], [0, 0], [], [], []⟩
      ⟨[], [true, true], [.running, .waiting], [], [[], []], [1, 0], [], [], []⟩ :=
    Step.beginRun 0 _ (by decide) rfl rfl
  have h4 : Step failPairFlow
      ⟨[], [true, true], [.running, .waiting], [], [[], []], [1, 0], [], [], []⟩
      ⟨[], [true, true], [.dead, .waiting], [], [[], []], [1, 0], [], [], []⟩ :=
    Step.endRunFail 0 _ (by decide) rfl rfl
  have h5 : Step failPairFlow
      ⟨[], [true, true], [.dead, .waiting], [], [[], []], [1, 0], [], [], []⟩
      ⟨[], [true, true], [.dead, .running], [], [[], []], [1, 1], [], [], []⟩ :=
    Step.beginRun 1 _ (by decide) rfl rfl
  have h6 : Step failPairFlow
      ⟨[], [true, true], [.dead, .running], [], [[], []], [1, 1], [], [], []⟩
      ⟨[], [true, false], [.dead, .publishing []], [], [[], []], [1, 1], [], [], []⟩ :=
    Step.endRunOk 1 _ (by decide) rfl rfl
  have h7 : Step failPairFlow
      ⟨[], [true, false], [.dead, .publishing []], [], [[], []], [1, 1], [], [], []⟩
      failPairFinal :=
    Step.finishPublish 1 _ (by decide) rfl
  exact ((((((Relation.ReflTransGen.refl.tail h1).tail h2).tail h3).tail
    h4).tail h5).tail h6).tail h7

/-- Witness for the amended claim C8 on a complete run where the sibling
worker of the faulted node finished normally and the scheduler joined. -/
theorem c8_witness :
    failPairFinal.phaseAt 1 = .done
    ∧ StuckSt failPairFlow failPairFinal
    ∧ (failPairFinal.failures = []
      ∧ (∀ n, failPairFinal.phaseAt n = .dead →
          failPairFlow.failingAt n = true
          ∧ ∀ e ∈ failPairFinal.delivered, failPairFlow.owner e.1 ≠ n)) :=
  ⟨rfl, stuck_of_stepSuccs_nil (by decide),
   c8_amended failPairFlow failPairFinal failPair_reach⟩

/-! ## Claim C6: readiness counting

Supporting facts about `insertIfAbsent` and the publish lists, then the
statement-level (lock-free) delivery semantics over which the claim is
settled. -/

theorem mem_insertIfAbsent (l : List Nat) (x y : Nat) :
    y ∈ insertIfAbsent l x ↔ y ∈ l ∨ y = x := by
  unfold insertIfAbsent
  split
  · rename_i h
    constructor
    · exact Or.inl
    · intro hy
      rcases hy with hy | hy
      · exact hy
      · rw [hy]
        exact h
  · simp [List.mem_append]

theorem nodup_insertIfAbsent (l : List Nat) (x : Nat) (h : l.Nodup) :
    (insertIfAbsent l x).Nodup := by
  unfold insertIfAbsent
  split
  · exact h
  · rename_i hx
    simp [List.nodup_append, h, hx]

theorem insertIfAbsent_of_not_mem {l : List Nat} {x : Nat} (h : ¬ x ∈ l) :
    insertIfAbsent l x = l ++ [x] := by
  unfold insertIfAbsent
  rw [if_neg h]
theorem length_le_insertIfAbsent (l : List Nat) (x : Nat) :
    l.length ≤ (insertIfAbsent l x).length := by
  unfold insertIfAbsent
  split
  · exact Nat.le_refl _
  · simp

theorem mem_publishList_mem_edges {G : FlowG} {n : Nat} {e : Nat × Nat}
    (h : e ∈ G.publishList n) : e ∈ G.edges := by
  unfold FlowG.publishList at h
  rw [List.mem_flatMap] at h
  obtain ⟨o, _, hmap⟩ := h
  rw [List.mem_map] at hmap
  obtain ⟨t, ht, heq⟩ := hmap
  unfold FlowG.succsOf at ht
  rw [List.mem_map] at ht
  obtain ⟨p, hp, hpt⟩ := ht
  rw [List.mem_filter] at hp
  have hp1 : p.1 = o := by simpa using hp.2
  have : p = e := by
    rw [← heq, ← hp1, ← hpt]
  rw [← this]
  exact hp.1

theorem mem_edges_mem_preds {G : FlowG} {src dst : Nat}
    (h : (src, dst) ∈ G.edges) : src ∈ G.preds dst := by
  unfold FlowG.preds
  rw [List.mem_map]
  exact ⟨(src, dst), List.mem_filter.mpr ⟨h, by simp⟩, rfl⟩

/-! ### Statement-level delivery semantics

`Interface.onContentReady` and `Node.onInterfaceReady` run without any lock:
the GIL may hand control to another worker between the
`__readypredecessors[interface] = True` insert and the
`len(...) >= len(self.predecessors)` comparison, and equally between the
`__readyinterfaces` insert and its comparison. The coarse `Step.deliver`
above runs the whole call chain atomically — adequate for the publication
and gate facts of claims C1, C2 and C8, whose scenarios have a single
deliverer per interface or are monotone in the interleaving — but it hides
schedules in which two workers deliver to one interface concurrently and
both pass the threshold check. Claim C6 is about exactly that count, so for
it the call chain is split at every statement boundary: `deliverInsert`
performs the dict insert, `predCheckHit`/`predCheckMiss` perform the
threshold comparison against the then-current state (a hit being the
`node.onInterfaceReady(self)` call), `riInsert` performs the
`__readyinterfaces` insert, and `ifaceCheckHit`/`ifaceCheckMiss` perform the
second comparison and, on a hit, `canRun.set()`. -/

/-- Worker phase in the statement-level model: as `WPhase`, plus the three
program points inside a delivery to `dst` (after the `__readypredecessors`
insert; inside `onInterfaceReady` before its insert; after the
`__readyinterfaces` insert). `todo` is the rest of the publish loop. -/
inductive WPhaseF
  | waiting
  | running
  | publishing (todo : List (Nat × Nat))
  | checkingPred (dst : Nat) (todo : List (Nat × Nat))
  | notifying (dst : Nat) (todo : List (Nat × Nat))
  | checkingIface (dst : Nat) (todo : List (Nat × Nat))
  | done
  | dead
deriving DecidableEq

/-- Interleaving state of the statement-level model (fields as in `St`). -/
structure StF where
  kickQueue : List Nat
  canRun : List Bool
  phase : List WPhaseF
  readypreds : List (List Nat)
  readyifaces : List (List Nat)
  runCount : List Nat
  notifyCount : List Nat
  delivered : List (Nat × Nat)
  failures : List Nat
deriving DecidableEq

def StF.canRunAt (s : StF) (n : Nat) : Bool := s.canRun.getD n false

def StF.phaseAt (s : StF) (n : Nat) : WPhaseF := s.phase.getD n .waiting

def StF.rpAt (s : StF) (i : Nat) : List Nat := s.readypreds.getD i []

def StF.riAt (s : StF) (n : Nat) : List Nat := s.readyifaces.getD n []

def StF.runCountAt (s : StF) (n : Nat) : Nat := s.runCount.getD n 0

def StF.notifyCountAt (s : StF) (i : Nat) : Nat := s.notifyCount.getD i 0

/-- The spawn-complete state, as `initSt`. -/
def initStF (G : FlowG) : StF :=
  { kickQueue := G.runnerKickList
    canRun := List.replicate G.nodes.length false
    phase := List.replicate G.nodes.length .waiting
    readypreds := List.replicate G.ifaces.length []
    readyifaces := List.replicate G.nodes.length []
    runCount := List.replicate G.nodes.length 0
    notifyCount := List.replicate G.ifaces.length 0
    delivered := []
    failures := [] }

/-- One interleaved statement-level step. The first four constructors and
the last mirror `Step`; a coarse `Step.deliver` decomposes into
`deliverInsert`, one `predCheck*`, and on a hit `riInsert` followed by one
`ifaceCheck*` — with arbitrary steps of other workers in between. The
`notifyCount` ghost counts `predCheckHit`, the `node.onInterfaceReady(self)`
call. -/
inductive StepF (G : FlowG) : StF → StF → Prop
  | kick (n : Nat) (rest : List Nat) (s : StF) :
      s.kickQueue = n :: rest →
      StepF G s { s with kickQueue := rest, canRun := s.canRun.set n true }
  | beginRun (n : Nat) (s : StF) :
      n < G.nodes.length →
      s.phaseAt n = .waiting →
      s.canRunAt n = true →
      StepF G s { s with phase := s.phase.set n .running,
                         runCount := s.runCount.set n (s.runCountAt n + 1) }
  | endRunOk (n : Nat) (s : StF) :
      n < G.nodes.length →
      s.phaseAt n = .running →
      G.failingAt n = false →
      StepF G s { s with phase := s.phase.set n (.publishing (G.publishList n)),
                         canRun := s.canRun.set n false }
  | endRunFail (n : Nat) (s : StF) :
      n < G.nodes.length →
      s.phaseAt n = .running →
      G.failingAt n = true →
      StepF G s { s with phase := s.phase.set n .dead }
  | deliverInsert (n src dst : Nat) (todo : List (Nat × Nat)) (s : StF) :
      n < G.nodes.length →
      s.phaseAt n = .publishing ((src, dst) :: todo) →
      StepF G s { s with
        phase := s.phase.set n (.checkingPred dst todo),
        readypreds := s.readypreds.set dst (insertIfAbsent (s.rpAt dst) src),
        delivered := s.delivered ++ [(src, dst)] }
  | predCheckHit (n dst : Nat) (todo : List (Nat × Nat)) (s : StF) :
      n < G.nodes.length →
      s.phaseAt n = .checkingPred dst todo →
      (G.preds dst).length ≤ (s.rpAt dst).length →
      StepF G s { s with
        phase := s.phase.set n (.notifying dst todo),
        notifyCount := s.notifyCount.set dst (s.notifyCountAt dst + 1) }
  | predCheckMiss (n dst : Nat) (todo : List (Nat × Nat)) (s : StF) :
      n < G.nodes.length →
      s.phaseAt n = .checkingPred dst todo →
      ¬ (G.preds dst).length ≤ (s.rpAt dst).length →
      StepF G s { s with phase := s.phase.set n (.publishing todo) }
  | riInsert (n dst : Nat) (todo : List (Nat × Nat)) (s : StF) :
      n < G.nodes.length →
      s.phaseAt n = .notifying dst todo →
      StepF G s { s with
        phase := s.phase.set n (.checkingIface dst todo),
        readyifaces := s.readyifaces.set (G.owner dst)
          (insertIfAbsent (s.riAt (G.owner dst)) dst) }
  | ifaceCheckHit (n dst : Nat) (todo : List (Nat × Nat)) (s : StF) :
      n < G.nodes.length →
      s.phaseAt n = .checkingIface dst todo →
      (G.inputSlotIfaces (G.owner dst)).length ≤ (s.riAt (G.owner dst)).length →
      StepF G s { s with
        phase := s.phase.set n (.publishing todo),
        canRun := s.canRun.set (G.owner dst) true }
  | ifaceCheckMiss (n dst : Nat) (todo : List (Nat × Nat)) (s : StF) :
      n < G.nodes.length →
      s.phaseAt n = .checkingIface dst todo →
      ¬ (G.inputSlotIfaces (G.owner dst)).length ≤ (s.riAt (G.owner dst)).length →
      StepF G s { s with phase := s.phase.set n (.publishing todo) }
  | finishPublish (n : Nat) (s : StF) :
      n < G.nodes.length →
      s.phaseAt n = .publishing [] →
      StepF G s { s with phase := s.phase.set n .done }

/-- States reachable by the statement-level run. -/
def ReachF (G : FlowG) (s : StF) : Prop :=
  Relation.ReflTransGen (StepF G) (initStF G) s

def StuckStF (G : FlowG) (s : StF) : Prop :=
  ∀ s', ¬ StepF G s s'

/-- Once the kick queue is drained and every worker has returned or died,
nothing can step: `join` returns and the run is over. -/
theorem stuckF_of_terminated {G : FlowG} {s : StF}
    (hq : s.kickQueue = [])
    (hph : ∀ n, n < G.nodes.length → s.phaseAt n = .done ∨ s.phaseAt n = .dead) :
    StuckStF G s := by
  intro s' h
  cases h with
  | kick n rest s hq2 => rw [hq] at hq2; cases hq2
  | beginRun n s hn hp hc =>
      rcases hph n hn with h | h <;> rw [h] at hp <;> cases hp
  | endRunOk n s hn hp hf =>
      rcases hph n hn with h | h <;> rw [h] at hp <;> cases hp
  | endRunFail n s hn hp hf =>
      rcases hph n hn with h | h <;> rw [h] at hp <;> cases hp
  | deliverInsert n src dst todo s hn hp =>
      rcases hph n hn with h | h <;> rw [h] at hp <;> cases hp
  | predCheckHit n dst todo s hn hp hth =>
      rcases hph n hn with h | h <;> rw [h] at hp <;> cases hp
  | predCheckMiss n dst todo s hn hp hth =>
      rcases hph n hn with h | h <;> rw [h] at hp <;> cases hp
  | riInsert n dst todo s hn hp =>
      rcases hph n hn with h | h <;> rw [h] at hp <;> cases hp
  | ifaceCheckHit n dst todo s hn hp hth =>
      rcases hph n hn with h | h <;> rw [h] at hp <;> cases hp
  | ifaceCheckMiss n dst todo s hn hp hth =>
      rcases hph n hn with h | h <;> rw [h] at hp <;> cases hp
  | finishPublish n s hn hp =>
      rcases hph n hn with h | h <;> rw [h] at hp <;> cases hp

theorem phaseAtF_init (G : FlowG) (n : Nat) : (initStF G).phaseAt n = .waiting :=
  listGetDRepl _ _ _

theorem rpAtF_init (G : FlowG) (i : Nat) : (initStF G).rpAt i = [] :=
  listGetDRepl _ _ _

theorem notifyCountAtF_init (G : FlowG) (i : Nat) : (initStF G).notifyCountAt i = 0 :=
  listGetDRepl _ _ _

/-- Invariant of the statement-level model behind claim C6: bookkeeping
lists keep their allocated sizes; pending publish entries — and the target a
worker is currently delivering to — come from the worker's publish list, and
a delivery past its insert has left the target's key set non-empty; an
interface's `__readypredecessors` key set is duplicate-free, drawn from its
predecessors and records exactly the delivered sources; a notified interface
has every predecessor delivered. No upper bound on `notifyCount` is
invariant: concurrent deliveries can pass the threshold together. -/
def InvC6F (G : FlowG) (s : StF) : Prop :=
  (s.phase.length = G.nodes.length
    ∧ s.readypreds.length = G.ifaces.length
    ∧ s.notifyCount.length = G.ifaces.length)
  ∧ (∀ n l, s.phaseAt n = .publishing l → ∀ e ∈ l, e ∈ G.publishList n)
  ∧ (∀ n dst todo, (s.phaseAt n = .checkingPred dst todo
        ∨ s.phaseAt n = .notifying dst todo
        ∨ s.phaseAt n = .checkingIface dst todo) →
      dst < G.ifaces.length ∧ s.rpAt dst ≠ []
        ∧ ∀ e ∈ todo, e ∈ G.publishList n)
  ∧ (∀ i, (s.rpAt i).Nodup)
  ∧ (∀ i x, x ∈ s.rpAt i → x ∈ G.preds i)
  ∧ (∀ i x, x ∈ s.rpAt i ↔ (x, i) ∈ s.delivered)
  ∧ (∀ i, 0 < s.notifyCountAt i →
      (G.preds i).length ≤ (s.rpAt i).length ∧ s.rpAt i ≠ [])

theorem invC6F_init (G : FlowG) : InvC6F G (initStF G) := by
  refine ⟨⟨by simp [initStF], by simp [initStF], by simp [initStF]⟩,
    ?_, ?_, ?_, ?_, ?_, ?_⟩
  · intro n l hml
    rw [phaseAtF_init] at hml
    cases hml
  · intro n dst todo hml
    rcases hml with h | h | h <;> rw [phaseAtF_init] at h <;> cases h
  · intro i
    rw [rpAtF_init]
    exact List.nodup_nil
  · intro i x hx
    rw [rpAtF_init] at hx
    cases hx
  · intro i x
    rw [rpAtF_init]
    show x ∈ ([] : List Nat) ↔ (x, i) ∈ ([] : List (Nat × Nat))
    simp
  · intro i hpos
    rw [notifyCountAtF_init] at hpos
    exact absurd hpos (Nat.lt_irrefl 0)

/-- `InvC6F` is preserved by every statement-level step. -/
theorem invC6F_step {G : FlowG} (hwf : G.WF) {s s' : StF}
    (h : StepF G s s') (hi : InvC6F G s) : InvC6F G s' := by
  obtain ⟨⟨hA, hB, hC⟩, hpub, hchk, hnd, hsub, hdel, hnc⟩ := hi
  cases h with
  | kick n rest s hq =>
      exact ⟨⟨hA, hB, hC⟩, hpub, hchk, hnd, hsub, hdel, hnc⟩
  | beginRun n s hn hw hc =>
      have hnp : n < s.phase.length := by rw [hA]; exact hn
      refine ⟨⟨by simpa using hA, hB, hC⟩, ?_, ?_, hnd, hsub, hdel, hnc⟩
      · intro m l hml
        have hml2 : (s.phase.set n .running).getD m .waiting = .publishing l := hml
        rw [getDSet _ _ _ _ _ hnp] at hml2
        by_cases hmn : m = n
        · rw [if_pos hmn] at hml2
          cases hml2
        · rw [if_neg hmn] at hml2
          exact hpub m l hml2
      · intro m dst2 todo2 hml
        have hml2 : ((s.phase.set n .running).getD m .waiting = .checkingPred dst2 todo2
            ∨ (s.phase.set n .running).getD m .waiting = .notifying dst2 todo2
            ∨ (s.phase.set n .running).getD m .waiting = .checkingIface dst2 todo2) := hml
        rw [getDSet _ _ _ _ _ hnp] at hml2
        by_cases hmn : m = n
        · rw [if_pos hmn] at hml2
          rcases hml2 with h2 | h2 | h2 <;> cases h2
        · rw [if_neg hmn] at hml2
          exact hchk m dst2 todo2 hml2
  | endRunOk n s hn hp hf =>
      have hnp : n < s.phase.length := by rw [hA]; exact hn
      refine ⟨⟨by simpa using hA, hB, hC⟩, ?_, ?_, hnd, hsub, hdel, hnc⟩
      · intro m l hml
        have hml2 : (s.phase.set n (.publishing (G.publishList n))).getD m .waiting
            = .publishing l := hml
        rw [getDSet _ _ _ _ _ hnp] at hml2
        by_cases hmn : m = n
        · rw [if_pos hmn] at hml2
          cases hml2
          rw [hmn]
          exact fun e he => he
        · rw [if_neg hmn] at hml2
          exact hpub m l hml2
      · intro m dst2 todo2 hml
        have hml2 : ((s.phase.set n (.publishing (G.publishList n))).getD m .waiting
              = .checkingPred dst2 todo2
            ∨ (s.phase.set n (.publishing (G.publishList n))).getD m .waiting
              = .notifying dst2 todo2
            ∨ (s.phase.set n (.publishing (G.publishList n))).getD m .waiting
              = .checkingIface dst2 todo2) := hml
        rw [getDSet _ _ _ _ _ hnp] at hml2
        by_cases hmn : m = n
        · rw [if_pos hmn] at hml2
          rcases hml2 with h2 | h2 | h2 <;> cases h2
        · rw [if_neg hmn] at hml2
          exact hchk m dst2 todo2 hml2
  | endRunFail n s hn hp hf =>
      have hnp : n < s.phase.length := by rw [hA]; exact hn
      refine ⟨⟨by simpa using hA, hB, hC⟩, ?_, ?_, hnd, hsub, hdel, hnc⟩
      · intro m l hml
        have hml2 : (s.phase.set n .dead).getD m .waiting = .publishing l := hml
        rw [getDSet _ _ _ _ _ hnp] at hml2
        by_cases hmn : m = n
        · rw [if_pos hmn] at hml2
          cases hml2
        · rw [if_neg hmn] at hml2
          exact hpub m l hml2
      · intro m dst2 todo2 hml
        have hml2 : ((s.phase.set n .dead).getD m .waiting = .checkingPred dst2 todo2
            ∨ (s.phase.set n .dead).getD m .waiting = .notifying dst2 todo2
            ∨ (s.phase.set n .dead).getD m .waiting = .checkingIface dst2 todo2) := hml
        rw [getDSet _ _ _ _ _ hnp] at hml2
        by_cases hmn : m = n
        · rw [if_pos hmn] at hml2
          rcases hml2 with h2 | h2 | h2 <;> cases h2
        · rw [if_neg hmn] at hml2
          exact hchk m dst2 todo2 hml2
  | deliverInsert n src dst todo s hn hp =>
      have hnp : n < s.phase.length := by rw [hA]; exact hn
      have hmemP : (src, dst) ∈ G.publishList n :=
        hpub n ((src, dst) :: todo) hp (src, dst) (List.mem_cons_self _ _)
      have htodoP : ∀ e ∈ todo, e ∈ G.publishList n :=
        fun e he => hpub n ((src, dst) :: todo) hp e (List.mem_cons_of_mem _ he)
      have hedge : (src, dst) ∈ G.edges := mem_publishList_mem_edges hmemP
      have hdstlt : dst < G.ifaces.length := (hwf.1 (src, dst) hedge).2
      have hsrc : src ∈ G.preds dst := mem_edges_mem_preds hedge
      have hdstrp : dst < s.readypreds.length := by rw [hB]; exact hdstlt
      have hrpAt : ∀ i,
          (s.readypreds.set dst (insertIfAbsent (s.rpAt dst) src)).getD i []
            = if i = dst then insertIfAbsent (s.rpAt dst) src else s.rpAt i :=
        fun i => getDSet _ _ _ _ _ hdstrp
      refine ⟨⟨by simpa using hA, by simpa using hB, hC⟩, ?_, ?_, ?_, ?_, ?_, ?_⟩
      · intro m l hml
        have hml2 : (s.phase.set n (.checkingPred dst todo)).getD m .waiting
            = .publishing l := hml
        rw [getDSet _ _ _ _ _ hnp] at hml2
        by_cases hmn : m = n
        · rw [if_pos hmn] at hml2
          cases hml2
        · rw [if_neg hmn] at hml2
          exact hpub m l hml2
      · intro m dst2 todo2 hml
        have hml2 : ((s.phase.set n (.checkingPred dst todo)).getD m .waiting
              = .checkingPred dst2 todo2
            ∨ (s.phase.set n (.checkingPred dst todo)).getD m .waiting
              = .notifying dst2 todo2
            ∨ (s.phase.set n (.checkingPred dst todo)).getD m .waiting
              = .checkingIface dst2 todo2) := hml
        rw [getDSet _ _ _ _ _ hnp] at hml2
        by_cases hmn : m = n
        · rw [if_pos hmn] at hml2
          rcases hml2 with h2 | h2 | h2
          · cases h2
            refine ⟨hdstlt, ?_, ?_⟩
            · show (s.readypreds.set dst
                  (insertIfAbsent (s.rpAt dst) src)).getD dst [] ≠ []
              rw [hrpAt dst, if_pos rfl]
              exact insertIfAbsent_ne_nil _ _
            · rw [hmn]
              exact htodoP
          · cases h2
          · cases h2
        · rw [if_neg hmn] at hml2
          obtain ⟨h1, h2, h3⟩ := hchk m dst2 todo2 hml2
          refine ⟨h1, ?_, h3⟩
          show (s.readypreds.set dst
              (insertIfAbsent (s.rpAt dst) src)).getD dst2 [] ≠ []
          rw [hrpAt dst2]
          by_cases hdd : dst2 = dst
          · rw [if_pos hdd]
            exact insertIfAbsent_ne_nil _ _
          · rw [if_neg hdd]
            exact h2
      · intro i
        show ((s.readypreds.set dst
            (insertIfAbsent (s.rpAt dst) src)).getD i []).Nodup
        rw [hrpAt i]
        by_cases hid : i = dst
        · rw [if_pos hid]
          exact nodup_insertIfAbsent _ _ (hnd dst)
        · rw [if_neg hid]
          exact hnd i
      · intro i x hx
        have hx2 : x ∈ (s.readypreds.set dst
            (insertIfAbsent (s.rpAt dst) src)).getD i [] := hx
        rw [hrpAt i] at hx2
        by_cases hid : i = dst
        · rw [if_pos hid] at hx2
          rcases (mem_insertIfAbsent _ _ _).mp hx2 with h2 | h2
          · rw [hid]
            exact hsub dst x h2
          · rw [hid, h2]
            exact hsrc
        · rw [if_neg hid] at hx2
          exact hsub i x hx2
      · intro i x
        show x ∈ (s.readypreds.set dst
              (insertIfAbsent (s.rpAt dst) src)).getD i []
            ↔ (x, i) ∈ s.delivered ++ [(src, dst)]
        rw [hrpAt i, List.mem_append, List.mem_singleton]
        by_cases hid : i = dst
        · rw [if_pos hid, hid, mem_insertIfAbsent, hdel dst x]
          simp [Prod.ext_iff]
        · rw [if_neg hid, hdel i x]
          have hne2 : ¬ (x, i) = (src, dst) := fun hc => hid (congrArg Prod.snd hc)
          simp [hne2]
      · intro i hpos
        have hpos2 : 0 < s.notifyCountAt i := hpos
        obtain ⟨hth, hne⟩ := hnc i hpos2
        constructor
        · show (G.preds i).length ≤ ((s.readypreds.set dst
              (insertIfAbsent (s.rpAt dst) src)).getD i []).length
          rw [hrpAt i]
          by_cases hid : i = dst
          · rw [if_pos hid, hid]
            rw [hid] at hth
            exact le_trans hth (length_le_insertIfAbsent _ _)
          · rw [if_neg hid]
            exact hth
        · show (s.readypreds.set dst
              (insertIfAbsent (s.rpAt dst) src)).getD i [] ≠ []
          rw [hrpAt i]
          by_cases hid : i = dst
          · rw [if_pos hid]
            exact insertIfAbsent_ne_nil _ _
          · rw [if_neg hid]
            exact hne
  | predCheckHit n dst todo s hn hp hth =>
      have hnp : n < s.phase.length := by rw [hA]; exact hn
      obtain ⟨hdstlt, hrpne, htodoP⟩ := hchk n dst todo (Or.inl hp)
      have hdstnc : dst < s.notifyCount.length := by rw [hC]; exact hdstlt
      refine ⟨⟨by simpa using hA, hB, by simpa using hC⟩, ?_, ?_, hnd, hsub, hdel, ?_⟩
      · intro m l hml
        have hml2 : (s.phase.set n (.notifying dst todo)).getD m .waiting
            = .publishing l := hml
        rw [getDSet _ _ _ _ _ hnp] at hml2
        by_cases hmn : m = n
        · rw [if_pos hmn] at hml2
          cases hml2
        · rw [if_neg hmn] at hml2
          exact hpub m l hml2
      · intro m dst2 todo2 hml
        have hml2 : ((s.phase.set n (.notifying dst todo)).getD m .waiting
              = .checkingPred dst2 todo2
            ∨ (s.phase.set n (.notifying dst todo)).getD m .waiting
              = .notifying dst2 todo2
            ∨ (s.phase.set n (.notifying dst todo)).getD m .waiting
              = .checkingIface dst2 todo2) := hml
        rw [getDSet _ _ _ _ _ hnp] at hml2
        by_cases hmn : m = n
        · rw [if_pos hmn] at hml2
          rcases hml2 with h2 | h2 | h2
          · cases h2
          · cases h2
            refine ⟨hdstlt, hrpne, ?_⟩
            rw [hmn]
            exact htodoP
          · cases h2
        · rw [if_neg hmn] at hml2
          exact hchk m dst2 todo2 hml2
      · intro i hpos
        have hpos2 : 0 < (s.notifyCount.set dst (s.notifyCountAt dst + 1)).getD i 0 :=
          hpos
        rw [getDSet _ _ _ _ _ hdstnc] at hpos2
        by_cases hid : i = dst
        · rw [hid]
          exact ⟨hth, hrpne⟩
        · rw [if_neg hid] at hpos2
          exact hnc i hpos2
  | predCheckMiss n dst todo s hn hp hth =>
      have hnp : n < s.phase.length := by rw [hA]; exact hn
      obtain ⟨hdstlt, hrpne, htodoP⟩ := hchk n dst todo (Or.inl hp)
      refine ⟨⟨by simpa using hA, hB, hC⟩, ?_, ?_, hnd, hsub, hdel, hnc⟩
      · intro m l hml
        have hml2 : (s.phase.set n (.publishing todo)).getD m .waiting
            = .publishing l := hml
        rw [getDSet _ _ _ _ _ hnp] at hml2
        by_cases hmn : m = n
        · rw [if_pos hmn] at hml2
          cases hml2
          rw [hmn]
          exact htodoP
        · rw [if_neg hmn] at hml2
          exact hpub m l hml2
      · intro m dst2 todo2 hml
        have hml2 : ((s.phase.set n (.publishing todo)).getD m .waiting
              = .checkingPred dst2 todo2
            ∨ (s.phase.set n (.publishing todo)).getD m .waiting
              = .notifying dst2 todo2
            ∨ (s.phase.set n (.publishing todo)).getD m .waiting
              = .checkingIface dst2 todo2) := hml
        rw [getDSet _ _ _ _ _ hnp] at hml2
        by_cases hmn : m = n
        · rw [if_pos hmn] at hml2
          rcases hml2 with h2 | h2 | h2 <;> cases h2
        · rw [if_neg hmn] at hml2
          exact hchk m dst2 todo2 hml2
  | riInsert n dst todo s hn hp =>
      have hnp : n < s.phase.length := by rw [hA]; exact hn
      obtain ⟨hdstlt, hrpne, htodoP⟩ := hchk n dst todo (Or.inr (Or.inl hp))
      refine ⟨⟨by simpa using hA, hB, hC⟩, ?_, ?_, hnd, hsub, hdel, hnc⟩
      · intro m l hml
        have hml2 : (s.phase.set n (.checkingIface dst todo)).getD m .waiting
            = .publishing l := hml
        rw [getDSet _ _ _ _ _ hnp] at hml2
        by_cases hmn : m = n
        · rw [if_pos hmn] at hml2
          cases hml2
        · rw [if_neg hmn] at hml2
          exact hpub m l hml2
      · intro m dst2 todo2 hml
        have hml2 : ((s.phase.set n (.checkingIface dst todo)).getD m .waiting
              = .checkingPred dst2 todo2
            ∨ (s.phase.set n (.checkingIface dst todo)).getD m .waiting
              = .notifying dst2 todo2
            ∨ (s.phase.set n (.checkingIface dst todo)).getD m .waiting
              = .checkingIface dst2 todo2) := hml
        rw [getDSet _ _ _ _ _ hnp] at hml2
        by_cases hmn : m = n
        · rw [if_pos hmn] at hml2
          rcases hml2 with h2 | h2 | h2
          · cases h2
          · cases h2
          · cases h2
            refine ⟨hdstlt, hrpne, ?_⟩
            rw [hmn]
            exact htodoP
        · rw [if_neg hmn] at hml2
          exact hchk m dst2 todo2 hml2
  | ifaceCheckHit n dst todo s hn hp hth =>
      have hnp : n < s.phase.length := by rw [hA]; exact hn
      obtain ⟨hdstlt, hrpne, htodoP⟩ := hchk n dst todo (Or.inr (Or.inr hp))
      refine ⟨⟨by simpa using hA, hB, hC⟩, ?_, ?_, hnd, hsub, hdel, hnc⟩
      · intro m l hml
        have hml2 : (s.phase.set n (.publishing todo)).getD m .waiting
            = .publishing l := hml
        rw [getDSet _ _ _ _ _ hnp] at hml2
        by_cases hmn : m = n
        · rw [if_pos hmn] at hml2
          cases hml2
          rw [hmn]
          exact htodoP
        · rw [if_neg hmn] at hml2
          exact hpub m l hml2
      · intro m dst2 todo2 hml
        have hml2 : ((s.phase.set n (.publishing todo)).getD m .waiting
              = .checkingPred dst2 todo2
            ∨ (s.phase.set n (.publishing todo)).getD m .waiting
              = .notifying dst2 todo2
            ∨ (s.phase.set n (.publishing todo)).getD m .waiting
              = .checkingIface dst2 todo2) := hml
        rw [getDSet _ _ _ _ _ hnp] at hml2
        by_cases hmn : m = n
        · rw [if_pos hmn] at hml2
          rcases hml2 with h2 | h2 | h2 <;> cases h2
        · rw [if_neg hmn] at hml2
          exact hchk m dst2 todo2 hml2
  | ifaceCheckMiss n dst todo s hn hp hth =>
      have hnp : n < s.phase.length := by rw [hA]; exact hn
      obtain ⟨hdstlt, hrpne, htodoP⟩ := hchk n dst todo (Or.inr (Or.inr hp))
      refine ⟨⟨by simpa using hA, hB, hC⟩, ?_, ?_, hnd, hsub, hdel, hnc⟩
      · intro m l hml
        have hml2 : (s.phase.set n (.publishing todo)).getD m .waiting
            = .publishing l := hml
        rw [getDSet _ _ _ _ _ hnp] at hml2
        by_cases hmn : m = n
        · rw [if_pos hmn] at hml2
          cases hml2
          rw [hmn]
          exact htodoP
        · rw [if_neg hmn] at hml2
          exact hpub m l hml2
      · intro m dst2 todo2 hml
        have hml2 : ((s.phase.set n (.publishing todo)).getD m .waiting
              = .checkingPred dst2 todo2
            ∨ (s.phase.set n (.publishing todo)).getD m .waiting
              = .notifying dst2 todo2
            ∨ (s.phase.set n (.publishing todo)).getD m .waiting
              = .checkingIface dst2 todo2) := hml
        rw [getDSet _ _ _ _ _ hnp] at hml2
        by_cases hmn : m = n
        · rw [if_pos hmn] at hml2
          rcases hml2 with h2 | h2 | h2 <;> cases h2
        · rw [if_neg hmn] at hml2
          exact hchk m dst2 todo2 hml2
  | finishPublish n s hn hp =>
      have hnp : n < s.phase.length := by rw [hA]; exact hn
      refine ⟨⟨by simpa using hA, hB, hC⟩, ?_, ?_, hnd, hsub, hdel, hnc⟩
      · intro m l hml
        have hml2 : (s.phase.set n .done).getD m .waiting = .publishing l := hml
        rw [getDSet _ _ _ _ _ hnp] at hml2
        by_cases hmn : m = n
        · rw [if_pos hmn] at hml2
          cases hml2
        · rw [if_neg hmn] at hml2
          exact hpub m l hml2
      · intro m dst2 todo2 hml
        have hml2 : ((s.phase.set n .done).getD m .waiting = .checkingPred dst2 todo2
            ∨ (s.phase.set n .done).getD m .waiting = .notifying dst2 todo2
            ∨ (s.phase.set n .done).getD m .waiting = .checkingIface dst2 todo2) := hml
        rw [getDSet _ _ _ _ _ hnp] at hml2
        by_cases hmn : m = n
        · rw [if_pos hmn] at hml2
          rcases hml2 with h2 | h2 | h2 <;> cases h2
        · rw [if_neg hmn] at hml2
          exact hchk m dst2 todo2 hml2

/-- `InvC6F` holds in every reachable state. -/
theorem invC6F_reach {G : FlowG} (hwf : G.WF) {s : StF} (h : ReachF G s) :
    InvC6F G s := by
  induction h with
  | refl => exact invC6F_init G
  | tail hab hbc ih => exact invC6F_step hwf hbc ih

/-- Claim C6 (amended): in every reachable state of the statement-level
execution model, each interface's `__readypredecessors` key set is a
duplicate-free subset of its predecessors recording exactly the sources
delivered so far, and the owning node has been notified about the interface
only when the number of distinct delivered predecessors has reached the total
predecessor count — in particular an interface with no predecessors is never
notified. No exactly-once guarantee holds: the lockless insert/check sequence
lets two concurrent deliveries both pass the threshold, so the notification
can fire more than once, and an interface whose predecessors never all
deliver (or that has none) is notified zero times — both schedules are
exhibited by the counterexample. -/
theorem c6_amended (G : FlowG) (hwf : G.WF) (s : StF) (h : ReachF G s) (i : Nat) :
    (s.rpAt i).Nodup
    ∧ (∀ x ∈ s.rpAt i, x ∈ G.preds i)
    ∧ (∀ x, x ∈ s.rpAt i ↔ (x, i) ∈ s.delivered)
    ∧ (s.rpAt i).length ≤ (G.preds i).length
    ∧ (0 < s.notifyCountAt i →
        (G.preds i).length ≤ (s.rpAt i).length ∧ G.preds i ≠ []) := by
  obtain ⟨-, -, -, hnd, hsub, hdel, hnc⟩ := invC6F_reach hwf h
  refine ⟨hnd i, fun x hx => hsub i x hx, fun x => hdel i x, ?_, ?_⟩
  · exact (List.subperm_of_subset (hnd i) (fun x hx => hsub i x hx)).length_le
  · intro hpos
    obtain ⟨hth, hne⟩ := hnc i hpos
    refine ⟨hth, ?_⟩
    intro hpe
    apply hne
    cases hrp : s.rpAt i with
    | nil => rfl
    | cons a t =>
        have ha : a ∈ G.preds i :=
          hsub i a (by rw [hrp]; exact List.mem_cons_self _ _)
        rw [hpe] at ha
        exact absurd ha (List.not_mem_nil a)

/-- Two source `InputNode`s whose outputs both feed the single slot input of
a third node: a two-predecessor fan-in. -/
def fanInFlow : FlowG :=
  { nodes := [⟨"s1", true, false⟩, ⟨"s2", true, false⟩, ⟨"t", false, false⟩]
    ifaces := [⟨0, "out", .output, .value, true⟩,
               ⟨1, "out", .output, .value, true⟩,
               ⟨2, "in", .input, .value, true⟩]
    edges := [(0, 2), (1, 2)] }

/-- The end of a complete `fanInFlow` run in which both deliveries to
interface 2 are inserted before either threshold check executes: the target
node is notified twice. -/
def fanInFinal : StF :=
  ⟨[], [false, false, false], [.done, .done, .done], [[], [], [0, 1]],
   [[], [], [2]], [1, 1, 1], [0, 0, 2], [(0, 2), (1, 2)], []⟩

theorem fanIn_reach : ReachF fanInFlow fanInFinal := by
  have h1 : StepF fanInFlow (initStF fanInFlow)
      ⟨[1], [true, false, false], [.waiting, .waiting, .waiting],
       [[], [], []], [[], [], []], [0, 0, 0], [0, 0, 0], [], []⟩ :=
    StepF.kick 0 [1] _ rfl
  have h2 : StepF fanInFlow
      ⟨[1], [true, false, false], [.waiting, .waiting, .waiting],
       [[], [], []], [[], [], []], [0, 0, 0], [0, 0, 0], [], []⟩
      ⟨[], [true, true, false], [.waiting, .waiting, .waiting],
       [[], [], []], [[], [], []], [0, 0, 0], [0, 0, 0], [], []⟩ :=
    StepF.kick 1 [] _ rfl
  have h3 : StepF fanInFlow
      ⟨[], [true, true, false], [.waiting, .waiting, .waiting],
       [[], [], []], [[], [], []], [0, 0, 0], [0, 0, 0], [], []⟩
      ⟨[], [true, true, false], [.running, .waiting, .waiting],
       [[], [], []], [[], [], []], [1, 0, 0], [0, 0, 0], [], []⟩ :=
    StepF.beginRun 0 _ (by decide) rfl rfl
  have h4 : StepF fanInFlow
      ⟨[], [true, true, false], [.running, .waiting, .waiting],
       [[], [], []], [[], [], []], [1, 0, 0], [0, 0, 0], [], []⟩
      ⟨[], [false, true, false], [.publishing [(0, 2)], .waiting, .waiting],
       [[], [], []], [[], [], []], [1, 0, 0], [0, 0, 0], [], []⟩ :=
    StepF.endRunOk 0 _ (by decide) rfl rfl
  have h5 : StepF fanInFlow
      ⟨[], [false, true, false], [.publishing [(0, 2)], .waiting, .waiting],
       [[], [], []], [[], [], []], [1, 0, 0], [0, 0, 0], [], []⟩
      ⟨[], [false, true, false], [.publishing [(0, 2)], .running, .waiting],
       [[], [], []], [[], [], []], [1, 1, 0], [0, 0, 0], [], []⟩ :=
    StepF.beginRun 1 _ (by decide) rfl rfl
  have h6 : StepF fanInFlow
      ⟨[], [false, true, false], [.publishing [(0, 2)], .running, .waiting],
       [[], [], []], [[], [], []], [1, 1, 0], [0, 0, 0], [], []⟩
      ⟨[], [false, false, false],
       [.publishing [(0, 2)], .publishing [(1, 2)], .waiting],
       [[], [], []], [[], [], []], [1, 1, 0], [0, 0, 0], [], []⟩ :=
    StepF.endRunOk 1 _ (by decide) rfl rfl
  have h7 : StepF fanInFlow
      ⟨[], [false, false, false],
       [.publishing [(0, 2)], .publishing [(1, 2)], .waiting],
       [[], [], []], [[], [], []], [1, 1, 0], [0, 0, 0], [], []⟩
      ⟨[], [false, false, false],
       [.checkingPred 2 [], .publishing [(1, 2)], .waiting],
       [[], [], [0]], [[], [], []], [1, 1, 0], [0, 0, 0], [(0, 2)], []⟩ :=
    StepF.deliverInsert 0 0 2 [] _ (by decide) rfl
  have h8 : StepF fanInFlow
      ⟨[], [false, false, false],
       [.checkingPred 2 [], .publishing [(1, 2)], .waiting],
       [[], [], [0]], [[], [], []], [1, 1, 0], [0, 0, 0], [(0, 2)], []⟩
      ⟨[], [false, false, false],
       [.checkingPred 2 [], .checkingPred 2 [], .waiting],
       [[], [], [0, 1]], [[], [], []], [1, 1, 0], [0, 0, 0],
       [(0, 2), (1, 2)], []⟩ :=
    StepF.deliverInsert 1 1 2 [] _ (by decide) rfl
  have h9 : StepF fanInFlow
      ⟨[], [false, false, false],
       [.checkingPred 2 [], .checkingPred 2 [], .waiting],
       [[], [], [0, 1]], [[], [], []], [1, 1, 0], [0, 0, 0],
       [(0, 2), (1, 2)], []⟩
      ⟨[], [false, false, false],
       [.notifying 2 [], .checkingPred 2 [], .waiting],
       [[], [], [0, 1]], [[], [], []], [1, 1, 0], [0, 0, 1],
       [(0, 2), (1, 2)], []⟩ :=
    StepF.predCheckHit 0 2 [] _ (by decide) rfl (by decide)
  have h10 : StepF fanInFlow
      ⟨[], [false, false, false],
       [.notifying 2 [], .checkingPred 2 [], .waiting],
       [[], [], [0, 1]], [[], [], []], [1, 1, 0], [0, 0, 1],
       [(0, 2), (1, 2)], []⟩
      ⟨[], [false, false, false],
       [.notifying 2 [], .notifying 2 [], .waiting],
       [[], [], [0, 1]], [[], [], []], [1, 1, 0], [0, 0, 2],
       [(0, 2), (1, 2)], []⟩ :=
    StepF.predCheckHit 1 2 [] _ (by decide) rfl (by decide)
  have h11 : StepF fanInFlow
      ⟨[], [false, false, false],
       [.notifying 2 [], .notifying 2 [], .waiting],
       [[], [], [0, 1]], [[], [], []], [1, 1, 0], [0, 0, 2],
       [(0, 2), (1, 2)], []⟩
      ⟨[], [false, false, false],
       [.checkingIface 2 [], .notifying 2 [], .waiting],
       [[], [], [0, 1]], [[], [], [2]], [1, 1, 0], [0, 0, 2],
       [(0, 2), (1, 2)], []⟩ :=
    StepF.riInsert 0 2 [] _ (by decide) rfl
  have h12 : StepF fanInFlow
      ⟨[], [false, false, false],
       [.checkingIface 2 [], .notifying 2 [], .waiting],
       [[], [], [0, 1]], [[], [], [2]], [1, 1, 0], [0, 0, 2],
       [(0, 2), (1, 2)], []⟩
      ⟨[], [false, false, true],
       [.publishing [], .notifying 2 [], .waiting],
       [[], [], [0, 1]], [[], [], [2]], [1, 1, 0], [0, 0, 2],
       [(0, 2), (1, 2)], []⟩ :=
    StepF.ifaceCheckHit 0 2 [] _ (by decide) rfl (by decide)
  have h13 : StepF fanInFlow
      ⟨[], [false, false, true],
       [.publishing [], .notifying 2 [], .waiting],
       [[], [], [0, 1]], [[], [], [2]], [1, 1, 0], [0, 0, 2],
       [(0, 2), (1, 2)], []⟩
      ⟨[], [false, false, true],
       [.done, .notifying 2 [], .waiting],
       [[], [], [0, 1]], [[], [], [2]], [1, 1, 0], [0, 0, 2],
       [(0, 2), (1, 2)], []⟩ :=
    StepF.finishPublish 0 _ (by decide) rfl
  have h14 : StepF fanInFlow
      ⟨[], [false, false, true],
       [.done, .notifying 2 [], .waiting],
       [[], [], [0, 1]], [[], [], [2]], [1, 1, 0], [0, 0, 2],
       [(0, 2), (1, 2)], []⟩
      ⟨[], [false, false, true],
       [.done, .checkingIface 2 [], .waiting],
       [[], [], [0, 1]], [[], [], [2]], [1, 1, 0], [0, 0, 2],
       [(0, 2), (1, 2)], []⟩ :=
    StepF.riInsert 1 2 [] _ (by decide) rfl
  have h15 : StepF fanInFlow
      ⟨[], [false, false, true],
       [.done, .checkingIface 2 [], .waiting],
       [[], [], [0, 1]], [[], [], [2]], [1, 1, 0], [0, 0, 2],
       [(0, 2), (1, 2)], []⟩
      ⟨[], [false, false, true],
       [.done, .publishing [], .waiting],
       [[], [], [0, 1]], [[], [], [2]], [1, 1, 0], [0, 0, 2],
       [(0, 2), (1, 2)], []⟩ :=
    StepF.ifaceCheckHit 1 2 [] _ (by decide) rfl (by decide)
  have h16 : StepF fanInFlow
      ⟨[], [false, false, true],
       [.done, .publishing [], .waiting],
       [[], [], [0, 1]], [[], [], [2]], [1, 1, 0], [0, 0, 2],
       [(0, 2), (1, 2)], []⟩
      ⟨[], [false, false, true],
       [.done, .done, .waiting],
       [[], [], [0, 1]], [[], [], [2]], [1, 1, 0], [0, 0, 2],
       [(0, 2), (1, 2)], []⟩ :=
    StepF.finishPublish 1 _ (by decide) rfl
  have h17 : StepF fanInFlow
      ⟨[], [false, false, true],
       [.done, .done, .waiting],
       [[], [], [0, 1]], [[], [], [2]], [1, 1, 0], [0, 0, 2],
       [(0, 2), (1, 2)], []⟩
      ⟨[], [false, false, true],
       [.done, .done, .running],
       [[], [], [0, 1]], [[], [], [2]], [1, 1, 1], [0, 0, 2],
       [(0, 2), (1, 2)], []⟩ :=
    StepF.beginRun 2 _ (by decide) rfl rfl
  have h18 : StepF fanInFlow
      ⟨[], [false, false, true],
       [.done, .done, .running],
       [[], [], [0, 1]], [[], [], [2]], [1, 1, 1], [0, 0, 2],
       [(0, 2), (1, 2)], []⟩
      ⟨[], [false, false, false],
       [.done, .done, .publishing []],
       [[], [], [0, 1]], [[], [], [2]], [1, 1, 1], [0, 0, 2],
       [(0, 2), (1, 2)], []⟩ :=
    StepF.endRunOk 2 _ (by decide) rfl rfl
  have h19 : StepF fanInFlow
      ⟨[], [false, false, false],
       [.done, .done, .publishing []],
       [[], [], [0, 1]], [[], [], [2]], [1, 1, 1], [0, 0, 2],
       [(0, 2), (1, 2)], []⟩
      fanInFinal :=
    StepF.finishPublish 2 _ (by decide) rfl
  exact ((((((((((((((((((Relation.ReflTransGen.refl.tail
    h1).tail h2).tail h3).tail h4).tail h5).tail h6).tail h7).tail h8).tail
    h9).tail h10).tail h11).tail h12).tail h13).tail h14).tail h15).tail
    h16).tail h17).tail h18).tail h19

/-- A single `InputNode` with one never-connected slot input interface. -/
def isolatedIfaceFlow : FlowG :=
  { nodes := [⟨"n", true, false⟩]
    ifaces := [⟨0, "in", .input, .value, true⟩]
    edges := [] }

/-- Complete statement-level run of `isolatedIfaceFlow` (the runner kicks
the node because it is an `InputNode` with no predecessors; its worker runs
and finishes without any delivery). -/
def isoIfaceFinalF : StF :=
  ⟨[], [false], [.done], [[]], [[]], [1], [0], [], []⟩

theorem isoIfaceF_reach : ReachF isolatedIfaceFlow isoIfaceFinalF := by
  have h1 : StepF isolatedIfaceFlow (initStF isolatedIfaceFlow)
      ⟨[], [true], [.waiting], [[]], [[]], [0], [0], [], []⟩ :=
    StepF.kick 0 [] _ rfl
  have h2 : StepF isolatedIfaceFlow
      ⟨[], [true], [.waiting], [[]], [[]], [0], [0], [], []⟩
      ⟨[], [true], [.running], [[]], [[]], [1], [0], [], []⟩ :=
    StepF.beginRun 0 _ (by decide) rfl rfl
  have h3 : StepF isolatedIfaceFlow
      ⟨[], [true], [.running], [[]], [[]], [1], [0], [], []⟩
      ⟨[], [false], [.publishing []], [[]], [[]], [1], [0], [], []⟩ :=
    StepF.endRunOk 0 _ (by decide) rfl rfl
  have h4 : StepF isolatedIfaceFlow
      ⟨[], [false], [.publishing []], [[]], [[]], [1], [0], [], []⟩
      isoIfaceFinalF :=
    StepF.finishPublish 0 _ (by decide) rfl
  exact (((Relation.ReflTransGen.refl.tail h1).tail h2).tail h3).tail h4

/-- Claim C6 counterexample, both failing halves of "exactly once (never
zero times and never more than once)". More than once: in `fanInFlow` the
slot input (interface 2) has the duplicate-free predecessors `[0, 1]`; the
schedule interleaves the two workers' lockless deliveries so that both
inserts into `__readypredecessors` precede both threshold checks, each check
then sees the full count, and the complete stuck run ends with the owner
notified twice. Zero times: the complete run of `isolatedIfaceFlow` ends
with its zero-predecessor interface never notified, because a notification
only ever fires inside a predecessor's delivery and there is none. -/
theorem c6_counterexample :
    (fanInFlow.preds 2 = [0, 1]
      ∧ (fanInFlow.preds 2).Nodup
      ∧ ReachF fanInFlow fanInFinal
      ∧ StuckStF fanInFlow fanInFinal
      ∧ fanInFinal.notifyCountAt 2 = 2)
    ∧ (isolatedIfaceFlow.preds 0 = []
      ∧ isolatedIfaceFlow.inputSlotIfaces 0 = [0]
      ∧ ReachF isolatedIfaceFlow isoIfaceFinalF
      ∧ StuckStF isolatedIfaceFlow isoIfaceFinalF
      ∧ isoIfaceFinalF.notifyCountAt 0 = 0) :=
  ⟨⟨rfl, by decide, fanIn_reach, stuckF_of_terminated rfl (by decide), rfl⟩,
   ⟨rfl, rfl, isoIfaceF_reach, stuckF_of_terminated rfl (by decide), rfl⟩⟩

/-- Witness for the amended claim C6 at the completed fan-in run: the key
set of interface 2 is a duplicate-free enumeration of its two predecessors,
matches the delivery log, and the (double) notification indeed came after
all predecessors had delivered. -/
theorem c6_witness :
    (fanInFinal.rpAt 2).Nodup
    ∧ (∀ x ∈ fanInFinal.rpAt 2, x ∈ fanInFlow.preds 2)
    ∧ (∀ x, x ∈ fanInFinal.rpAt 2 ↔ (x, 2) ∈ fanInFinal.delivered)
    ∧ (fanInFinal.rpAt 2).length ≤ (fanInFlow.preds 2).length
    ∧ (0 < fanInFinal.notifyCountAt 2 →
        (fanInFlow.preds 2).length ≤ (fanInFinal.rpAt 2).length
          ∧ fanInFlow.preds 2 ≠ []) :=
  c6_amended fanInFlow ⟨by decide, by decide⟩ fanInFinal fanIn_reach 2



/-! ## Claim C9: XML round-trip

Static facts about node classes, and tooling for the two import passes. -/

/-- `eval(classname)` recovers every instantiable node class. -/
theorem classnameToType_classname (t : NodeType) :
    classnameToType t.classname = some t := by
  cases t <;> rfl

/-- Every node class declares pairwise distinct interface names. -/
theorem declNames_nodup (t : NodeType) :
    ((t.declIfaces).map (fun s => s.name)).Nodup := by
  cases t <;> decide

/-- The `slot` attribute round-trips through its textual form. -/
theorem parseSlot_pyBool (b : Bool) : parseSlot (pyBool b) = b := by
  cases b <;> decide

/-- The shape of an interface object: everything `importXml` cannot change
(name, direction, payload kind). -/
def ifaceShape (s : SIface) : String × IfaceType × IfaceKind :=
  (s.name, s.ty, s.kind)

/-- The literal value held by the interface denoted by a reference. -/
def valAt (g : SFlow) (r : Ref) : Option String :=
  (g.iface r).map (fun s => s.value)

/-- `findIdx?` by id finds the position of a node when ids are unique. -/
theorem findIdxIdUnique : ∀ (l : List SNode) (base k : Nat) (n : SNode),
    l[k]? = some n → (l.map (fun m => m.id)).Nodup →
    List.findIdx? (fun m => m.id == n.id) l base = some (base + k)
  | [], _, k, n, h, _ => by simp at h
  | x :: t, base, 0, n, h, hnd => by
      have hx : x = n := by simpa using h
      subst hx
      rw [List.findIdx?_cons, if_pos (by simp)]
      rw [Nat.add_zero]
  | x :: t, base, k + 1, n, h, hnd => by
      have ht : t[k]? = some n := by simpa using h
      have hmem : n ∈ t := List.getElem?_mem ht
      have hnd2 : (x.id :: t.map (fun m => m.id)).Nodup := by simpa using hnd
      have hne : x.id ≠ n.id := by
        intro hc
        have hmm : n.id ∈ t.map (fun m => m.id) := List.mem_map_of_mem _ hmem
        rw [← hc] at hmm
        exact (List.nodup_cons.mp hnd2).1 hmm
      rw [List.findIdx?_cons, if_neg (by simpa using hne)]
      rw [findIdxIdUnique t (base + 1) k n ht (by simpa using (List.nodup_cons.mp hnd2).2)]
      congr 1
      omega

theorem findNodeIdx_unique {f : SFlow} {k : Nat} {n : SNode}
    (h : f.nodes[k]? = some n) (hnd : (f.nodes.map (fun m => m.id)).Nodup) :
    f.findNodeIdx n.id = some k := by
  unfold SFlow.findNodeIdx
  have := findIdxIdUnique f.nodes 0 k n h hnd
  rw [this, Nat.zero_add]

/-- `find?` by name returns the indexed element when names are unique. -/
theorem findNameUnique : ∀ (l : List SIface) (j : Nat) (s : SIface),
    l[j]? = some s → (l.map (fun x => x.name)).Nodup →
    l.find? (fun x => x.name == s.name) = some s
  | [], j, s, h, _ => by simp at h
  | x :: t, 0, s, h, hnd => by
      have hx : x = s := by simpa using h
      subst hx
      rw [List.find?_cons_of_pos _ (by simp)]
  | x :: t, j + 1, s, h, hnd => by
      have ht : t[j]? = some s := by simpa using h
      have hmem : s ∈ t := List.getElem?_mem ht
      have hnd2 : (x.name :: t.map (fun m => m.name)).Nodup := by simpa using hnd
      have hne : x.name ≠ s.name := by
        intro hc
        have hmm : s.name ∈ t.map (fun m => m.name) := List.mem_map_of_mem _ hmem
        rw [← hc] at hmm
        exact (List.nodup_cons.mp hnd2).1 hmm
      rw [List.find?_cons_of_neg _ (by simpa using hne)]
      exact findNameUnique t j s ht (by simpa using (List.nodup_cons.mp hnd2).2)

/-- `find?` by name on shape-equal interface lists yields shape-equal
results. -/
theorem findNameShape : ∀ (l1 l2 : List SIface),
    l1.map ifaceShape = l2.map ifaceShape → ∀ nm,
    (l1.find? (fun s => s.name == nm)).map ifaceShape
      = (l2.find? (fun s => s.name == nm)).map ifaceShape
  | [], [], _, _ => rfl
  | [], _ :: _, h, _ => by simp at h
  | _ :: _, [], h, _ => by simp at h
  | x :: t1, y :: t2, h, nm => by
      rw [List.map_cons, List.map_cons] at h
      have hxy : ifaceShape x = ifaceShape y := by
        have := congrArg (fun l => l[0]?) h
        simpa using this
      have ht : t1.map ifaceShape = t2.map ifaceShape := by
        have := congrArg List.tail h
        simpa using this
      have hname : x.name = y.name := congrArg (fun p => p.1) hxy
      by_cases hn : x.name = nm
      · rw [List.find?_cons_of_pos _ (by simpa using hn),
          List.find?_cons_of_pos _ (by rw [← hname]; simpa using hn)]
        simp [hxy]
      · rw [List.find?_cons_of_neg _ (by simpa using hn),
          List.find?_cons_of_neg _ (by rw [← hname]; simpa using hn)]
        exact findNameShape t1 t2 ht nm

theorem listSet_getElem : ∀ (l : List α) (i : Nat) (g : α → α) (j : Nat),
    (listSet l i g)[j]? = if j = i then (l[j]?).map g else l[j]?
  | [], i, g, j => by
      unfold listSet
      split <;> simp
  | x :: t, 0, g, 0 => by
      unfold listSet
      simp
  | x :: t, 0, g, j + 1 => by
      unfold listSet
      simp
  | x :: t, i + 1, g, 0 => by
      unfold listSet
      simp
  | x :: t, i + 1, g, j + 1 => by
      unfold listSet
      have := listSet_getElem t i g j
      simpa using this

theorem listSet_length : ∀ (l : List α) (i : Nat) (g : α → α),
    (listSet l i g).length = l.length
  | [], _, _ => rfl
  | _ :: t, 0, g => rfl
  | x :: t, i + 1, g => by
      unfold listSet
      simpa using listSet_length t i g

/-- `updFirstIface` with a shape-preserving mutation preserves the shape
list. -/
theorem updFirstIface_shape (nm : String) (g : SIface → SIface)
    (hg : ∀ s, ifaceShape (g s) = ifaceShape s) :
    ∀ (l : List SIface), (updFirstIface l nm g).map ifaceShape = l.map ifaceShape
  | [] => rfl
  | x :: t => by
      unfold updFirstIface
      by_cases hx : x.name = nm
      · rw [if_pos (by simpa using hx)]
        rw [List.map_cons, List.map_cons, hg]
      · rw [if_neg (by simpa using hx)]
        rw [List.map_cons, List.map_cons, updFirstIface_shape nm g hg t]

/-- Finding by the mutated name commutes with `updFirstIface` when the
mutation preserves names. -/
theorem updFirstIface_find_eq (nm : String) (g : SIface → SIface)
    (hg : ∀ s, (g s).name = s.name) :
    ∀ (l : List SIface),
      (updFirstIface l nm g).find? (fun x => x.name == nm)
        = (l.find? (fun x => x.name == nm)).map g
  | [] => rfl
  | x :: t => by
      unfold updFirstIface
      by_cases hx : x.name = nm
      · rw [if_pos (by simpa using hx)]
        rw [List.find?_cons_of_pos _ (by rw [hg]; simpa using hx),
          List.find?_cons_of_pos _ (by simpa using hx)]
        rfl
      · rw [if_neg (by simpa using hx)]
        rw [List.find?_cons_of_neg _ (by simpa using hx),
          List.find?_cons_of_neg _ (by simpa using hx)]
        exact updFirstIface_find_eq nm g hg t

/-- Finding another name is unaffected by `updFirstIface` when the mutation
preserves names. -/
theorem updFirstIface_find_ne (nm nm2 : String) (g : SIface → SIface)
    (hg : ∀ s, (g s).name = s.name) (hne : nm2 ≠ nm) :
    ∀ (l : List SIface),
      (updFirstIface l nm g).find? (fun x => x.name == nm2)
        = l.find? (fun x => x.name == nm2)
  | [] => rfl
  | x :: t => by
      unfold updFirstIface
      by_cases hx : x.name = nm
      · rw [if_pos (by simpa using hx)]
        have hx2 : (g x).name = x.name := hg x
        by_cases hh : x.name = nm2
        · exact absurd (hh.symm.trans hx) hne
        · rw [List.find?_cons_of_neg _ (by rw [hx2]; simpa using hh),
            List.find?_cons_of_neg _ (by simpa using hh)]
      · rw [if_neg (by simpa using hx)]
        by_cases hh : x.name = nm2
        · rw [List.find?_cons_of_pos _ (by simpa using hh),
            List.find?_cons_of_pos _ (by simpa using hh)]
        · rw [List.find?_cons_of_neg _ (by simpa using hh),
            List.find?_cons_of_neg _ (by simpa using hh)]
          exact updFirstIface_find_ne nm nm2 g hg hne t

/-- What `importXml` preserves of a flow through its second pass: node
count, ids, classes and interface shapes (only `slot`/`value` fields ever
change). -/
def coreOk (f g : SFlow) : Prop :=
  g.nodes.length = f.nodes.length
  ∧ ∀ (k : Nat) (nf ng : SNode), f.nodes[k]? = some nf → g.nodes[k]? = some ng →
      ng.id = nf.id ∧ ng.typeTag = nf.typeTag
      ∧ ng.ifaces.map ifaceShape = nf.ifaces.map ifaceShape

theorem coreOk_nodes_none {f g : SFlow} (h : coreOk f g) {k : Nat}
    (hf : f.nodes[k]? = none) : g.nodes[k]? = none := by
  rw [List.getElem?_eq_none_iff] at hf ⊢
  rw [h.1]
  exact hf

theorem coreOk_nodes_some {f g : SFlow} (h : coreOk f g) {k : Nat} {nf : SNode}
    (hf : f.nodes[k]? = some nf) : ∃ ng, g.nodes[k]? = some ng := by
  cases hg : g.nodes[k]? with
  | some ng => exact ⟨ng, rfl⟩
  | none =>
      rw [List.getElem?_eq_none_iff, h.1, ← List.getElem?_eq_none_iff] at hg
      rw [hf] at hg
      cases hg

theorem coreOk_ids {f g : SFlow} (h : coreOk f g) :
    g.nodes.map (fun n => n.id) = f.nodes.map (fun n => n.id) := by
  apply List.ext_getElem?
  intro i
  rw [List.getElem?_map, List.getElem?_map]
  cases hf : f.nodes[i]? with
  | none => rw [coreOk_nodes_none h hf]
  | some nf =>
      obtain ⟨ng, hg⟩ := coreOk_nodes_some h hf
      rw [hg]
      simp [(h.2 i nf ng hf hg).1]

theorem coreOk_shapes {f g : SFlow} (h : coreOk f g) (r : Ref) :
    (g.iface r).map ifaceShape = (f.iface r).map ifaceShape := by
  unfold SFlow.iface SNode.findInterface
  cases hf : f.nodes[r.1]? with
  | none => rw [coreOk_nodes_none h hf]
  | some nf =>
      obtain ⟨ng, hg⟩ := coreOk_nodes_some h hf
      rw [hg]
      exact findNameShape ng.ifaces nf.ifaces (h.2 r.1 nf ng hf hg).2.2 r.2

theorem canConnectTo_congr {f g : SFlow}
    (hs : ∀ r, (g.iface r).map ifaceShape = (f.iface r).map ifaceShape)
    (a b : Ref) : g.canConnectTo a b = f.canConnectTo a b := by
  have ha := hs a
  have hb := hs b
  unfold SFlow.canConnectTo
  cases hfa : f.iface a with
  | none =>
      rw [hfa] at ha
      cases hga : g.iface a with
      | some ga => rw [hga] at ha; simp at ha
      | none => rfl
  | some da =>
      rw [hfa] at ha
      cases hga : g.iface a with
      | none => rw [hga] at ha; simp at ha
      | some ga =>
          rw [hga] at ha
          have hsh : ifaceShape ga = ifaceShape da := by simpa using ha
          cases hfb : f.iface b with
          | none =>
              rw [hfb] at hb
              cases hgb : g.iface b with
              | some gb => rw [hgb] at hb; simp at hb
              | none => rfl
          | some db =>
              rw [hfb] at hb
              cases hgb : g.iface b with
              | none => rw [hgb] at hb; simp at hb
              | some gb =>
                  rw [hgb] at hb
                  have hshb : ifaceShape gb = ifaceShape db := by simpa using hb
                  have hka : ga.kind = da.kind := congrArg (fun p => p.2.2) hsh
                  have hkb : gb.kind = db.kind := congrArg (fun p => p.2.2) hshb
                  show (if a == b || a.1 == b.1 then false
                        else sameAncestor ga.kind gb.kind)
                    = (if a == b || a.1 == b.1 then false
                        else sameAncestor da.kind db.kind)
                  rw [hka, hkb]

theorem setIface_connectors (g : SFlow) (r : Ref) (u : SIface → SIface) :
    (g.setIface r u).connectors = g.connectors := rfl

theorem setIface_nodes_getElem (g : SFlow) (r : Ref) (u : SIface → SIface) (k : Nat) :
    (g.setIface r u).nodes[k]? =
      if k = r.1 then
        (g.nodes[k]?).map (fun n => { n with ifaces := updFirstIface n.ifaces r.2 u })
      else g.nodes[k]? := by
  unfold SFlow.setIface
  exact listSet_getElem g.nodes r.1 _ k

theorem setIface_coreOk {f g : SFlow} {r : Ref} {u : SIface → SIface}
    (hu : ∀ s, ifaceShape (u s) = ifaceShape s) (h : coreOk f g) :
    coreOk f (g.setIface r u) := by
  constructor
  · show (listSet g.nodes r.1 _).length = f.nodes.length
    rw [listSet_length]
    exact h.1
  · intro k nf ng hf hg
    rw [setIface_nodes_getElem] at hg
    by_cases hk : k = r.1
    · rw [if_pos hk] at hg
      obtain ⟨ng0, hg0⟩ := coreOk_nodes_some h hf
      rw [hg0] at hg
      have hng : ng = { ng0 with ifaces := updFirstIface ng0.ifaces r.2 u } := by
        simpa using hg.symm
      obtain ⟨h1, h2, h3⟩ := h.2 k nf ng0 hf hg0
      rw [hng]
      exact ⟨h1, h2, by rw [show ({ ng0 with ifaces := updFirstIface ng0.ifaces r.2 u } :
        SNode).ifaces = updFirstIface ng0.ifaces r.2 u from rfl,
        updFirstIface_shape r.2 u hu ng0.ifaces, h3]⟩
    · rw [if_neg hk] at hg
      exact h.2 k nf ng hf hg

/-- A name- and value-preserving interface mutation leaves every literal
value in place. -/
theorem setIface_valAt_keep (g : SFlow) (r : Ref) (u : SIface → SIface)
    (hn : ∀ s, (u s).name = s.name) (hv : ∀ s, (u s).value = s.value) (r2 : Ref) :
    valAt (g.setIface r u) r2 = valAt g r2 := by
  unfold valAt SFlow.iface SNode.findInterface
  rw [setIface_nodes_getElem]
  by_cases hk : r2.1 = r.1
  · rw [if_pos hk]
    cases hg : g.nodes[r2.1]? with
    | none => rfl
    | some n =>
        show ((updFirstIface n.ifaces r.2 u).find? (fun x => x.name == r2.2)).map
              (fun s => s.value)
          = (n.ifaces.find? (fun x => x.name == r2.2)).map (fun s => s.value)
        by_cases hnm : r2.2 = r.2
        · rw [hnm, updFirstIface_find_eq r.2 u hn]
          cases n.ifaces.find? (fun x => x.name == r.2) with
          | none => rfl
          | some s => simp [hv]
        · rw [updFirstIface_find_ne r.2 r2.2 u hn hnm]
  · rw [if_neg hk]

/-- Restoring a value: the addressed interface takes the new value, every
other interface keeps its own. -/
theorem setIface_valAt_set (g : SFlow) (r : Ref) (v : String) (r2 : Ref) :
    valAt (g.setIface r (fun s => { s with value := v })) r2
      = if r2 = r then (valAt g r2).map (fun _ => v) else valAt g r2 := by
  unfold valAt SFlow.iface SNode.findInterface
  rw [setIface_nodes_getElem]
  by_cases hk : r2.1 = r.1
  · rw [if_pos hk]
    cases hg : g.nodes[r2.1]? with
    | none =>
        by_cases hr : r2 = r <;> simp [hr]
    | some n =>
        show ((updFirstIface n.ifaces r.2 (fun s => { s with value := v })).find?
              (fun x => x.name == r2.2)).map (fun s => s.value)
          = if r2 = r then
              ((n.ifaces.find? (fun x => x.name == r2.2)).map
                (fun s => s.value)).map (fun _ => v)
            else (n.ifaces.find? (fun x => x.name == r2.2)).map (fun s => s.value)
        by_cases hnm : r2.2 = r.2
        · have hr2 : r2 = r := Prod.ext hk hnm
          rw [if_pos hr2, hnm,
            updFirstIface_find_eq r.2 (fun s => { s with value := v }) (fun s => rfl)]
          cases n.ifaces.find? (fun x => x.name == r.2) with
          | none => rfl
          | some s => rfl
        · have hr2 : ¬ r2 = r := fun hc => hnm (by rw [hc])
          rw [if_neg hr2,
            updFirstIface_find_ne r.2 r2.2 (fun s => { s with value := v })
              (fun s => rfl) hnm]
  · rw [if_neg hk]
    rw [if_neg (fun hc => hk (by rw [hc]))]

/-- Membership in `enumFrom` by position. -/
theorem mem_enumFrom_of_getElem {α : Type} : ∀ (l : List α) (base k : Nat) (x : α),
    l[k]? = some x → (base + k, x) ∈ List.enumFrom base l
  | [], _, k, x, h => by simp at h
  | y :: t, base, 0, x, h => by
      have hy : y = x := by simpa using h
      subst hy
      rw [List.enumFrom_cons]
      exact List.mem_cons_self _ _
  | y :: t, base, k + 1, x, h => by
      have ht : t[k]? = some x := by simpa using h
      have h2 := mem_enumFrom_of_getElem t (base + 1) k x ht
      rw [List.enumFrom_cons]
      have harith : (base + 1 + k, x) = (base + (k + 1), x) := by
        rw [Nat.add_assoc, Nat.add_comm 1 k]
      rw [harith] at h2
      exact List.mem_cons_of_mem _ h2

/-- The positions `enumFrom` records are correct. -/
theorem getElem_of_mem_enumFrom {α : Type} : ∀ (l : List α) (base : Nat) (p : Nat × α),
    p ∈ List.enumFrom base l → base ≤ p.1 ∧ l[p.1 - base]? = some p.2
  | [], _, p, h => by simp [List.enumFrom] at h
  | y :: t, base, p, h => by
      rw [List.enumFrom_cons] at h
      rcases List.mem_cons.mp h with h1 | h2
      · subst h1
        exact ⟨Nat.le_refl _, by simp⟩
      · obtain ⟨hle, hget⟩ := getElem_of_mem_enumFrom t (base + 1) p h2
        refine ⟨by omega, ?_⟩
        have hsub : p.1 - base = (p.1 - (base + 1)) + 1 := by omega
        rw [hsub]
        simpa using hget

theorem mem_enum_of_getElem {α : Type} {l : List α} {k : Nat} {x : α}
    (h : l[k]? = some x) : (k, x) ∈ l.enum := by
  rw [List.enum_eq_enumFrom]
  have := mem_enumFrom_of_getElem l 0 k x h
  simpa using this

theorem getElem_of_mem_enum {α : Type} {l : List α} {p : Nat × α}
    (h : p ∈ l.enum) : l[p.1]? = some p.2 := by
  rw [List.enum_eq_enumFrom] at h
  have := (getElem_of_mem_enumFrom l 0 p h).2
  simpa using this

/-- `findIdx?` by id only depends on the id column. -/
theorem findIdxIdCongr : ∀ (l1 l2 : List SNode) (base : Nat) (id : String),
    l1.map (fun n => n.id) = l2.map (fun n => n.id) →
    List.findIdx? (fun n => n.id == id) l1 base
      = List.findIdx? (fun n => n.id == id) l2 base
  | [], [], _, _, _ => rfl
  | [], _ :: _, _, _, h => by simp at h
  | _ :: _, [], _, _, h => by simp at h
  | x :: t1, y :: t2, base, id, h => by
      rw [List.map_cons, List.map_cons] at h
      have hxy : x.id = y.id := by
        have := congrArg (fun l => l[0]?) h
        simpa using this
      have ht : t1.map (fun n => n.id) = t2.map (fun n => n.id) := by
        have := congrArg List.tail h
        simpa using this
      rw [List.findIdx?_cons, List.findIdx?_cons, hxy]
      by_cases hy : (y.id == id) = true
      · rw [if_pos hy, if_pos hy]
      · rw [if_neg hy, if_neg hy]
        exact findIdxIdCongr t1 t2 (base + 1) id ht

/-- Node lookup by id coincides on flows with the same id column. -/
theorem coreOk_findNodeIdx {f g : SFlow} (h : coreOk f g) (id : String) :
    g.findNodeIdx id = f.findNodeIdx id := by
  unfold SFlow.findNodeIdx
  exact findIdxIdCongr g.nodes f.nodes 0 id (coreOk_ids h)

theorem coreOk_typeTags {f g : SFlow} (h : coreOk f g) :
    g.nodes.map (fun n => n.typeTag) = f.nodes.map (fun n => n.typeTag) := by
  apply List.ext_getElem?
  intro i
  rw [List.getElem?_map, List.getElem?_map]
  cases hf : f.nodes[i]? with
  | none => rw [coreOk_nodes_none h hf]
  | some nf =>
      obtain ⟨ng, hg⟩ := coreOk_nodes_some h hf
      rw [hg]
      simp [(h.2 i nf ng hf hg).2.1]

theorem coreOk_iface_some {f g : SFlow} (h : coreOk f g) {r : Ref} {s : SIface}
    (hf : f.iface r = some s) :
    ∃ d, g.iface r = some d ∧ ifaceShape d = ifaceShape s := by
  have hs := coreOk_shapes h r
  rw [hf] at hs
  cases hg : g.iface r with
  | none => rw [hg] at hs; simp at hs
  | some d =>
      rw [hg] at hs
      exact ⟨d, rfl, by simpa using hs⟩

/-- A resolving interface reference points below the node count. -/
theorem iface_some_lt {f : SFlow} {r : Ref} {s : SIface} (h : f.iface r = some s) :
    r.1 < f.nodes.length := by
  by_contra hlt
  have hn : f.nodes[r.1]? = none := List.getElem?_eq_none_iff.mpr (by omega)
  unfold SFlow.iface at h
  rw [hn] at h
  simp at h

/-- A positive `canConnectTo` certifies that both references resolve. -/
theorem canConnectTo_refs {f : SFlow} {a b : Ref} (h : f.canConnectTo a b = true) :
    (∃ sa, f.iface a = some sa) ∧ ∃ sb, f.iface b = some sb := by
  unfold SFlow.canConnectTo at h
  cases hfa : f.iface a with
  | none => rw [hfa] at h; simp at h
  | some da =>
      rw [hfa] at h
      cases hfb : f.iface b with
      | none => rw [hfb] at h; simp at h
      | some db => exact ⟨⟨da, rfl⟩, ⟨db, rfl⟩⟩

/-- `successors` lists exactly the connector targets of a source. -/
theorem mem_successors {f : SFlow} {a r : Ref} :
    r ∈ f.successors a ↔ (a, r) ∈ f.connectors := by
  unfold SFlow.successors
  constructor
  · intro h
    obtain ⟨e, he, hr⟩ := List.mem_map.mp h
    have hef := List.mem_filter.mp he
    have h1 : e.1 = a := by simpa using hef.2
    have he2 : e = (a, r) := Prod.ext h1 hr
    rw [← he2]
    exact hef.1
  · intro h
    apply List.mem_map.mpr
    exact ⟨(a, r), List.mem_filter.mpr ⟨h, by simp⟩, rfl⟩

/-- With duplicate-free names, every member is what `find?` by its own name
returns. -/
theorem find_self_of_nodup {l : List SIface}
    (hnd : (l.map (fun s => s.name)).Nodup) {s : SIface} (hs : s ∈ l) :
    l.find? (fun x => x.name == s.name) = some s := by
  obtain ⟨j, hj⟩ := List.mem_iff_getElem?.mp hs
  exact findNameUnique l j s hj hnd

/-- The node the first import pass builds from one `<node>` element whose id
attribute is non-blank. -/
def importedNode (x : XNode) : SNode :=
  { id := x.id
    typeTag := (classnameToType x.ty).getD .processNode
    graphicalprops := x.props.map (fun p => (p.1, atoi p.2))
    ifaces := ((classnameToType x.ty).getD .processNode).declIfaces }

/-- First pass of `importXml` on elements with known classnames and non-blank
ids: appends one freshly instantiated node per element, in order. -/
theorem importNodesAux_spec : ∀ (xl : List XNode) (f : SFlow),
    (∀ x ∈ xl, (classnameToType x.ty).isSome ∧ x.id ≠ "") →
    ∃ g, importNodesAux xl f = .ok g
      ∧ g.nodes = f.nodes ++ xl.map importedNode
      ∧ g.connectors = f.connectors
  | [], f, _ => ⟨f, rfl, by simp, rfl⟩
  | xn :: rest, f, h => by
      obtain ⟨hsome, hid⟩ := h xn (List.mem_cons_self _ _)
      cases ht : classnameToType xn.ty with
      | none => rw [ht] at hsome; simp at hsome
      | some t =>
          have hrest : ∀ x ∈ rest, (classnameToType x.ty).isSome ∧ x.id ≠ "" :=
            fun x hx => h x (List.mem_cons_of_mem _ hx)
          obtain ⟨g, hg, hnodes, hconn⟩ :=
            importNodesAux_spec rest (f.addNode
              { id := xn.id, typeTag := t
                graphicalprops := xn.props.map (fun p => (p.1, atoi p.2))
                ifaces := t.declIfaces }) hrest
          have hid' : (xn.id == "") = false := by simpa using hid
          refine ⟨g, ?_, ?_, ?_⟩
          · simp only [importNodesAux, ht, hid', Bool.false_eq_true, if_false]
            exact hg
          · rw [hnodes]
            simp [SFlow.addNode, importedNode, ht, List.append_assoc]
          · exact hconn

/-- What the first import pass makes of one original node: same id and class,
round-tripped graphical properties, pristine declared interfaces. -/
def pass1Node (n : SNode) : SNode :=
  { id := n.id, typeTag := n.typeTag
    graphicalprops := n.graphicalprops.map (fun q => (q.1, atoi (toString q.2)))
    ifaces := n.typeTag.declIfaces }

/-- The first import pass on an exported flow with non-blank ids succeeds and
reproduces every node up to slot/value/graphical details. -/
theorem pass1_exportXml (f : SFlow) (hblank : ∀ n ∈ f.nodes, n.id ≠ "") :
    ∃ g, importNodesAux (f.exportXml).nodes emptyFlow = .ok g
      ∧ g.nodes = f.nodes.map pass1Node
      ∧ g.connectors = [] := by
  obtain ⟨g, hg, hnodes, hconn⟩ := importNodesAux_spec (f.exportXml).nodes emptyFlow
    (by
      intro x hx
      obtain ⟨p, hp, hxp⟩ := List.mem_map.mp hx
      subst hxp
      constructor
      · show (classnameToType (exportNode f p.1 p.2).ty).isSome
        rw [show (exportNode f p.1 p.2).ty = p.2.typeTag.classname from rfl,
          classnameToType_classname]
        rfl
      · show (exportNode f p.1 p.2).id ≠ ""
        exact hblank p.2 (List.getElem?_mem (getElem_of_mem_enum hp)))
  refine ⟨g, hg, ?_, hconn⟩
  rw [hnodes]
  show [] ++ (f.nodes.enum.map (fun p => exportNode f p.1 p.2)).map importedNode
      = f.nodes.map pass1Node
  rw [List.nil_append, List.map_map]
  have hfun : (importedNode ∘ fun p : Nat × SNode => exportNode f p.1 p.2)
      = (fun p : Nat × SNode => pass1Node p.2) := by
    funext p
    show importedNode (exportNode f p.1 p.2) = pass1Node p.2
    simp [importedNode, exportNode, pass1Node, classnameToType_classname,
      List.map_map]
  rw [hfun]
  have h1 : (fun p : Nat × SNode => pass1Node p.2) = pass1Node ∘ Prod.snd := rfl
  rw [h1, ← List.map_map, List.enum_map_snd]

/-- The first pass output is core-equivalent to the original flow whenever the
original interfaces carry the declared shapes. -/
theorem pass1_coreOk {f : SFlow}
    (hshape : ∀ n ∈ f.nodes,
      n.ifaces.map ifaceShape = n.typeTag.declIfaces.map ifaceShape)
    {g : SFlow} (hn : g.nodes = f.nodes.map pass1Node) : coreOk f g := by
  constructor
  · rw [hn, List.length_map]
  · intro k nf ng hf hg
    rw [hn, List.getElem?_map, hf] at hg
    have hng : ng = pass1Node nf := by simpa using hg.symm
    subst hng
    refine ⟨rfl, rfl, ?_⟩
    show nf.typeTag.declIfaces.map ifaceShape = nf.ifaces.map ifaceShape
    exact (hshape nf (List.getElem?_mem hf)).symm

/-- The condition under which `importXml` restores an interface's literal
value from the `value` attribute. -/
def restoresValue (s : SIface) : Bool :=
  s.ty.isInput && (s.kind == IfaceKind.value) && !s.slot

/-- The innermost import loop on the exported successor elements of a source:
every link is re-established verbatim in order; nodes and values are
untouched. -/
theorem wireSuccs_spec {f : SFlow} (hids : (f.nodes.map (fun n => n.id)).Nodup) :
    ∀ (rl : List Ref) (g : SFlow) (src : Ref), coreOk f g →
    (∀ r ∈ rl, f.canConnectTo src r = true) →
    ∃ g2, wireSuccs g src (rl.map (fun r =>
        ({ node := f.nodeIdAt r.1, iface := r.2 } : XSucc))) = .ok g2
      ∧ coreOk f g2
      ∧ (∀ r2, valAt g2 r2 = valAt g r2)
      ∧ g2.connectors = g.connectors ++ rl.map (fun r => (src, r))
  | [], g, src, hco, _ => ⟨g, rfl, hco, fun _ => rfl, by simp⟩
  | r :: rest, g, src, hco, hcc => by
      have hccr : f.canConnectTo src r = true := hcc r (List.mem_cons_self _ _)
      obtain ⟨⟨sa, hsa⟩, ⟨sb, hsb⟩⟩ := canConnectTo_refs hccr
      have hlt : r.1 < f.nodes.length := iface_some_lt hsb
      obtain ⟨nf, hnf⟩ : ∃ nf, f.nodes[r.1]? = some nf := by
        cases hn : f.nodes[r.1]? with
        | some nf => exact ⟨nf, rfl⟩
        | none =>
            rw [List.getElem?_eq_none_iff] at hn
            omega
      have hfind : g.findNodeIdx (f.nodeIdAt r.1) = some r.1 := by
        rw [coreOk_findNodeIdx hco]
        have h1 : f.nodeIdAt r.1 = nf.id := by
          unfold SFlow.nodeIdAt
          rw [hnf]
        rw [h1]
        exact findNodeIdx_unique hnf hids
      obtain ⟨d, hd, hdsh⟩ :=
        coreOk_iface_some hco (show f.iface (r.1, r.2) = some sb from hsb)
      have hco1 : coreOk f (g.setIface (r.1, r.2) (fun s => { s with slot := true })) :=
        setIface_coreOk (fun s => rfl) hco
      have hcc1 : (g.setIface (r.1, r.2)
          (fun s => { s with slot := true })).canConnectTo src (r.1, r.2) = true := by
        rw [canConnectTo_congr (coreOk_shapes hco1)]
        exact hccr
      have hco2 : coreOk f
          { g.setIface (r.1, r.2) (fun s => { s with slot := true }) with
            connectors := (g.setIface (r.1, r.2)
              (fun s => { s with slot := true })).connectors ++ [(src, (r.1, r.2))] } :=
        hco1
      obtain ⟨g2, hw, hcog2, hval2, hconn2⟩ := wireSuccs_spec hids rest
        { g.setIface (r.1, r.2) (fun s => { s with slot := true }) with
          connectors := (g.setIface (r.1, r.2)
            (fun s => { s with slot := true })).connectors ++ [(src, (r.1, r.2))] }
        src hco2 (fun r2 hr2 => hcc r2 (List.mem_cons_of_mem _ hr2))
      refine ⟨g2, ?_, hcog2, ?_, ?_⟩
      · simp only [List.map_cons, wireSuccs, hfind, hd, SFlow.addSuccessor, hcc1,
          eq_self_iff_true, if_true]
        exact hw
      · intro r2
        rw [hval2 r2]
        exact setIface_valAt_keep g (r.1, r.2) (fun s => { s with slot := true })
          (fun s => rfl) (fun s => rfl) r2
      · rw [hconn2]
        show (g.connectors ++ [(src, r)]) ++ rest.map (fun x => (src, x))
            = g.connectors ++ (r :: rest).map (fun x => (src, x))
        simp [List.append_assoc]

/-- One `<interface>` element in the second pass: a non-slot input value
interface gets its literal value back, every other value is untouched, and
exactly the exported successor links are re-established. -/
theorem wireIface_spec {f : SFlow} (hids : (f.nodes.map (fun n => n.id)).Nodup)
    (hconnOk : ∀ e ∈ f.connectors, f.canConnectTo e.1 e.2 = true)
    {k : Nat} {nf : SNode} (hnf : f.nodes[k]? = some nf)
    {s : SIface} (hfind : nf.ifaces.find? (fun x => x.name == s.name) = some s)
    (g : SFlow) (hco : coreOk f g) :
    ∃ g2, wireIface g k (exportIface f k s) = .ok g2
      ∧ coreOk f g2
      ∧ (∀ r2, r2 ≠ (k, s.name) → valAt g2 r2 = valAt g r2)
      ∧ (restoresValue s = true → valAt g2 (k, s.name) = some s.value)
      ∧ g2.connectors = g.connectors
          ++ (f.successors (k, s.name)).map (fun x => ((k, s.name), x)) := by
  have hif : f.iface (k, s.name) = some s := by
    show (match f.nodes[k]? with
      | some n => n.findInterface s.name
      | none => none) = some s
    rw [hnf]
    exact hfind
  obtain ⟨d, hd, hdsh⟩ := coreOk_iface_some hco hif
  have hdty : d.ty = s.ty := congrArg (fun p => p.2.1) hdsh
  have hdkind : d.kind = s.kind := congrArg (fun p => p.2.2) hdsh
  have hsucc : ∀ x ∈ f.successors (k, s.name),
      f.canConnectTo (k, s.name) x = true := by
    intro x hx
    exact hconnOk _ (mem_successors.mp hx)
  cases hcond : s.ty.isInput && (s.kind == IfaceKind.value) with
  | false =>
      obtain ⟨g2, hw, hcog2, hval2, hconn2⟩ := wireSuccs_spec hids
        (f.successors (k, s.name))
        (g.setIface (k, s.name) (fun x => { x with slot := true }))
        (k, s.name) (setIface_coreOk (fun x => rfl) hco) hsucc
      refine ⟨g2, ?_, hcog2, ?_, ?_, ?_⟩
      · simp only [wireIface, exportIface, hd, hdty, hdkind, hcond,
          Bool.false_eq_true, if_false]
        exact hw
      · intro r2 _
        rw [hval2 r2]
        exact setIface_valAt_keep g (k, s.name) (fun x => { x with slot := true })
          (fun x => rfl) (fun x => rfl) r2
      · intro hr
        simp [restoresValue, hcond] at hr
      · rw [hconn2]
        rfl
  | true =>
      cases hslot : s.slot with
      | true =>
          obtain ⟨g2, hw, hcog2, hval2, hconn2⟩ := wireSuccs_spec hids
            (f.successors (k, s.name))
            ((g.setIface (k, s.name) (fun x => { x with slot := true })).setIface
              (k, s.name) (fun x => { x with slot := true }))
            (k, s.name)
            (setIface_coreOk (fun x => rfl) (setIface_coreOk (fun x => rfl) hco))
            hsucc
          refine ⟨g2, ?_, hcog2, ?_, ?_, ?_⟩
          · simp only [wireIface, exportIface, hd, hdty, hdkind, hcond, hslot,
              parseSlot_pyBool, if_true, Bool.not_true, Bool.false_eq_true,
              if_false, eq_self_iff_true]
            exact hw
          · intro r2 _
            rw [hval2 r2]
            rw [setIface_valAt_keep _ (k, s.name) (fun x => { x with slot := true })
              (fun x => rfl) (fun x => rfl) r2]
            exact setIface_valAt_keep g (k, s.name) (fun x => { x with slot := true })
              (fun x => rfl) (fun x => rfl) r2
          · intro hr
            simp [restoresValue, hcond, hslot] at hr
          · rw [hconn2]
            rfl
      | false =>
          obtain ⟨g2, hw, hcog2, hval2, hconn2⟩ := wireSuccs_spec hids
            (f.successors (k, s.name))
            (((g.setIface (k, s.name) (fun x => { x with slot := true })).setIface
                (k, s.name) (fun x => { x with slot := false })).setIface
              (k, s.name) (fun x => { x with value := s.value }))
            (k, s.name)
            (setIface_coreOk (fun x => rfl) (setIface_coreOk (fun x => rfl)
              (setIface_coreOk (fun x => rfl) hco)))
            hsucc
          have hcoX : coreOk f
              ((g.setIface (k, s.name) (fun x => { x with slot := true })).setIface
                (k, s.name) (fun x => { x with slot := false })) :=
            setIface_coreOk (fun x => rfl) (setIface_coreOk (fun x => rfl) hco)
          refine ⟨g2, ?_, hcog2, ?_, ?_, ?_⟩
          · simp only [wireIface, exportIface, hd, hdty, hdkind, hcond, hslot,
              parseSlot_pyBool, if_true, Bool.not_false, Bool.false_eq_true,
              Bool.and_true, Bool.true_and, if_false, eq_self_iff_true]
            exact hw
          · intro r2 hr2
            rw [hval2 r2]
            rw [setIface_valAt_set _ (k, s.name) s.value r2, if_neg hr2]
            rw [setIface_valAt_keep _ (k, s.name) (fun x => { x with slot := false })
              (fun x => rfl) (fun x => rfl) r2]
            exact setIface_valAt_keep g (k, s.name) (fun x => { x with slot := true })
              (fun x => rfl) (fun x => rfl) r2
          · intro _
            obtain ⟨d2, hd2, _⟩ := coreOk_iface_some hcoX hif
            rw [hval2 (k, s.name)]
            rw [setIface_valAt_set _ (k, s.name) s.value (k, s.name), if_pos rfl]
            have hvX : valAt ((g.setIface (k, s.name)
                (fun x => { x with slot := true })).setIface (k, s.name)
                (fun x => { x with slot := false })) (k, s.name) = some d2.value := by
              unfold valAt
              rw [hd2]
              rfl
            rw [hvX]
            rfl
          · rw [hconn2]
            rfl

/-- The second pass over all `<interface>` elements of one node: each
interface of the node is treated once, in order. -/
theorem wireIfaces_spec {f : SFlow} (hids : (f.nodes.map (fun n => n.id)).Nodup)
    (hconnOk : ∀ e ∈ f.connectors, f.canConnectTo e.1 e.2 = true)
    {k : Nat} {nf : SNode} (hnf : f.nodes[k]? = some nf) :
    ∀ (sl : List SIface) (g : SFlow), coreOk f g →
    (∀ s ∈ sl, nf.ifaces.find? (fun x => x.name == s.name) = some s) →
    (sl.map (fun s => s.name)).Nodup →
    ∃ g2, wireIfaces g k (sl.map (exportIface f k)) = .ok g2
      ∧ coreOk f g2
      ∧ (∀ r2, (∀ s ∈ sl, r2 ≠ (k, s.name)) → valAt g2 r2 = valAt g r2)
      ∧ (∀ s ∈ sl, restoresValue s = true → valAt g2 (k, s.name) = some s.value)
      ∧ g2.connectors = g.connectors
          ++ sl.flatMap (fun s =>
              (f.successors (k, s.name)).map (fun x => ((k, s.name), x)))
  | [], g, hco, _, _ =>
      ⟨g, rfl, hco, fun _ _ => rfl,
        fun s hs => absurd hs (List.not_mem_nil s), by simp⟩
  | s :: rest, g, hco, hfindall, hnd => by
      obtain ⟨g1, hw1, hco1, hkeep1, hres1, hconn1⟩ :=
        wireIface_spec hids hconnOk hnf (hfindall s (List.mem_cons_self _ _)) g hco
      have hnd2 := List.nodup_cons.mp
        (show (s.name :: rest.map (fun x => x.name)).Nodup by simpa using hnd)
      obtain ⟨g2, hw2, hco2, hkeep2, hres2, hconn2⟩ :=
        wireIfaces_spec hids hconnOk hnf rest g1 hco1
          (fun x hx => hfindall x (List.mem_cons_of_mem _ hx)) hnd2.2
      refine ⟨g2, ?_, hco2, ?_, ?_, ?_⟩
      · simp only [List.map_cons, wireIfaces, hw1]
        exact hw2
      · intro r2 hr2
        rw [hkeep2 r2 (fun x hx => hr2 x (List.mem_cons_of_mem _ hx))]
        exact hkeep1 r2 (hr2 s (List.mem_cons_self _ _))
      · intro x hx hrx
        rcases List.mem_cons.mp hx with h1 | h2
        · subst h1
          rw [hkeep2 (k, x.name) ?_]
          · exact hres1 hrx
          · intro y hy hc
            have hxy : x.name = y.name := congrArg Prod.snd hc
            exact hnd2.1 (hxy ▸ List.mem_map_of_mem _ hy)
        · exact hres2 x h2 hrx
      · rw [hconn2, hconn1]
        simp [List.flatMap_cons, List.append_assoc]

/-- The second pass over the `<node>` elements of an exported flow: each node
is resolved by its id and wired once. -/
theorem wireNodes_spec {f : SFlow} (hids : (f.nodes.map (fun n => n.id)).Nodup)
    (hshape : ∀ n ∈ f.nodes,
      n.ifaces.map ifaceShape = n.typeTag.declIfaces.map ifaceShape)
    (hconnOk : ∀ e ∈ f.connectors, f.canConnectTo e.1 e.2 = true) :
    ∀ (pl : List (Nat × SNode)) (g : SFlow), coreOk f g →
    (∀ p ∈ pl, f.nodes[p.1]? = some p.2) →
    (pl.map (fun p => p.1)).Nodup →
    ∃ g2, wireNodes g (pl.map (fun p => exportNode f p.1 p.2)) = .ok g2
      ∧ coreOk f g2
      ∧ (∀ r2, (∀ p ∈ pl, r2.1 ≠ p.1) → valAt g2 r2 = valAt g r2)
      ∧ (∀ p ∈ pl, ∀ s ∈ p.2.ifaces, restoresValue s = true →
            valAt g2 (p.1, s.name) = some s.value)
      ∧ g2.connectors = g.connectors
          ++ pl.flatMap (fun p => p.2.ifaces.flatMap (fun s =>
              (f.successors (p.1, s.name)).map (fun x => ((p.1, s.name), x))))
  | [], g, hco, _, _ =>
      ⟨g, rfl, hco, fun _ _ => rfl,
        fun p hp => absurd hp (List.not_mem_nil p), by simp⟩
  | p :: rest, g, hco, hget, hnd => by
      obtain ⟨k, nf⟩ := p
      have hnf : f.nodes[k]? = some nf := hget (k, nf) (List.mem_cons_self _ _)
      have hmem : nf ∈ f.nodes := List.getElem?_mem hnf
      have hnames : (nf.ifaces.map (fun x => x.name)).Nodup := by
        have h1 := congrArg
          (fun l => l.map (fun q : String × IfaceType × IfaceKind => q.1))
          (hshape nf hmem)
        have h2 : nf.ifaces.map (fun x => x.name)
            = nf.typeTag.declIfaces.map (fun x => x.name) := by
          simpa [List.map_map, ifaceShape, Function.comp] using h1
        rw [h2]
        exact declNames_nodup nf.typeTag
      have hfindk : g.findNodeIdx nf.id = some k := by
        rw [coreOk_findNodeIdx hco]
        exact findNodeIdx_unique hnf hids
      obtain ⟨g1, hw1, hco1, hkeep1, hres1, hconn1⟩ :=
        wireIfaces_spec hids hconnOk hnf nf.ifaces g hco
          (fun s hs => find_self_of_nodup hnames hs) hnames
      have hndc := List.nodup_cons.mp
        (show (k :: rest.map (fun q => q.1)).Nodup by simpa using hnd)
      obtain ⟨g2, hw2, hco2, hkeep2, hres2, hconn2⟩ :=
        wireNodes_spec hids hshape hconnOk rest g1 hco1
          (fun q hq => hget q (List.mem_cons_of_mem _ hq)) hndc.2
      refine ⟨g2, ?_, hco2, ?_, ?_, ?_⟩
      · simp only [List.map_cons, wireNodes, exportNode, hfindk, hw1]
        exact hw2
      · intro r2 hr2
        rw [hkeep2 r2 (fun q hq => hr2 q (List.mem_cons_of_mem _ hq))]
        exact hkeep1 r2 (fun s hs hc =>
          hr2 (k, nf) (List.mem_cons_self _ _) (congrArg Prod.fst hc))
      · intro q hq s hs hrs
        rcases List.mem_cons.mp hq with h1 | h2
        · subst h1
          show valAt g2 (k, s.name) = some s.value
          rw [hkeep2 (k, s.name) ?_]
          · exact hres1 s hs hrs
          · intro q' hq' hc
            have hck : k = q'.1 := hc
            exact hndc.1 (hck ▸ List.mem_map_of_mem (fun z => z.1) hq')
        · exact hres2 q h2 s hs hrs
      · rw [hconn2, hconn1]
        simp [List.flatMap_cons, List.append_assoc]

/-- The links the second pass re-establishes are exactly the original
connectors, regrouped by source interface. -/
theorem export_connectors_mem {f : SFlow}
    (hconnOk : ∀ e ∈ f.connectors, f.canConnectTo e.1 e.2 = true) (e : Ref × Ref) :
    (e ∈ f.nodes.enum.flatMap (fun p => p.2.ifaces.flatMap (fun s =>
        (f.successors (p.1, s.name)).map (fun x => ((p.1, s.name), x)))))
      ↔ e ∈ f.connectors := by
  constructor
  · intro h
    obtain ⟨p, hp, h2⟩ := List.mem_flatMap.mp h
    obtain ⟨s, hs, h3⟩ := List.mem_flatMap.mp h2
    obtain ⟨x, hx, hex⟩ := List.mem_map.mp h3
    rw [← hex]
    exact mem_successors.mp hx
  · intro h
    have hcc := hconnOk e h
    obtain ⟨⟨sa, hsa⟩, _⟩ := canConnectTo_refs hcc
    have hlt : e.1.1 < f.nodes.length := iface_some_lt hsa
    obtain ⟨nf, hnf⟩ : ∃ nf, f.nodes[e.1.1]? = some nf := by
      cases hn : f.nodes[e.1.1]? with
      | some nf => exact ⟨nf, rfl⟩
      | none =>
          rw [List.getElem?_eq_none_iff] at hn
          omega
    have hfind : nf.ifaces.find? (fun x => x.name == e.1.2) = some sa := by
      have hsa2 := hsa
      unfold SFlow.iface at hsa2
      rw [hnf] at hsa2
      exact hsa2
    have hsmem : sa ∈ nf.ifaces := List.mem_of_find?_eq_some hfind
    have hname : sa.name = e.1.2 := by simpa using List.find?_some hfind
    have hpair : ((e.1.1, sa.name), e.2) = e := by
      rw [hname]
    apply List.mem_flatMap.mpr
    refine ⟨(e.1.1, nf), mem_enum_of_getElem hnf, ?_⟩
    apply List.mem_flatMap.mpr
    refine ⟨sa, hsmem, ?_⟩
    apply List.mem_map.mpr
    exact ⟨e.2, mem_successors.mpr (hpair ▸ h), hpair⟩

/-- Claim C9 (amended): for every flow whose node ids are non-blank and
pairwise distinct, whose interfaces carry their class's declared shapes, and
whose connectors all satisfy `canConnectTo` (every flow the engine itself
builds), `load(save(flow))` succeeds and reproduces the graph: same node ids
in order, same node classes in order, the same literal value on every
non-slot input value interface, and exactly the original
interface-to-interface connections. -/
theorem c9_roundtrip (f : SFlow) (fn : String)
    (hids : (f.nodes.map (fun n => n.id)).Nodup)
    (hblank : ∀ n ∈ f.nodes, n.id ≠ "")
    (hshape : ∀ n ∈ f.nodes,
      n.ifaces.map ifaceShape = n.typeTag.declIfaces.map ifaceShape)
    (hconnOk : ∀ e ∈ f.connectors, f.canConnectTo e.1 e.2 = true) :
    ∃ f2, load fn (f.save).1 = .ok f2
      ∧ f2.nodes.map (fun n => n.id) = f.nodes.map (fun n => n.id)
      ∧ f2.nodes.map (fun n => n.typeTag) = f.nodes.map (fun n => n.typeTag)
      ∧ (∀ (r : Ref) (s : SIface), f.iface r = some s → restoresValue s = true →
          valAt f2 r = some s.value)
      ∧ (∀ e, e ∈ f2.connectors ↔ e ∈ f.connectors) := by
  obtain ⟨g0, hg0, hn0, hc0⟩ := pass1_exportXml f hblank
  have hco0 : coreOk f g0 := pass1_coreOk hshape hn0
  obtain ⟨gf, hwf, hcof, hkeepf, hresf, hconnf⟩ :=
    wireNodes_spec hids hshape hconnOk f.nodes.enum g0 hco0
      (fun p hp => getElem_of_mem_enum hp)
      (by
        rw [show (fun p : Nat × SNode => p.1) = Prod.fst from rfl,
          List.enum_map_fst]
        exact List.nodup_range _)
  refine ⟨{ gf with filename := some fn, modified := false }, ?_, ?_, ?_, ?_, ?_⟩
  · show load fn f.exportXml = .ok { gf with filename := some fn, modified := false }
    unfold load importXml
    simp only [SFlow.exportXml] at hg0 ⊢
    simp only [hg0, hwf]
  · show gf.nodes.map (fun n => n.id) = f.nodes.map (fun n => n.id)
    exact coreOk_ids hcof
  · show gf.nodes.map (fun n => n.typeTag) = f.nodes.map (fun n => n.typeTag)
    exact coreOk_typeTags hcof
  · intro r s hr hres
    have hlt : r.1 < f.nodes.length := iface_some_lt hr
    obtain ⟨nf, hnf⟩ : ∃ nf, f.nodes[r.1]? = some nf := by
      cases hn : f.nodes[r.1]? with
      | some nf => exact ⟨nf, rfl⟩
      | none =>
          rw [List.getElem?_eq_none_iff] at hn
          omega
    have hfind : nf.ifaces.find? (fun x => x.name == r.2) = some s := by
      have hr2 := hr
      unfold SFlow.iface at hr2
      rw [hnf] at hr2
      exact hr2
    have hsmem : s ∈ nf.ifaces := List.mem_of_find?_eq_some hfind
    have hname : s.name = r.2 := by simpa using List.find?_some hfind
    have hres2 := hresf (r.1, nf) (mem_enum_of_getElem hnf) s hsmem hres
    show valAt gf r = some s.value
    have hrr : ((r.1, nf).1, s.name) = r := by
      rw [hname]
    rw [hrr] at hres2
    exact hres2
  · intro e
    show e ∈ gf.connectors ↔ e ∈ f.connectors
    rw [hconnf, hc0, List.nil_append]
    exact export_connectors_mem hconnOk e

/-- A flow holding a single node whose id is blank, as `Flow.addNode` leaves
it when handed a node built without the `flow` keyword. -/
def blankIdFlow : SFlow :=
  { modified := false, filename := none
    nodes := [⟨"", .valueInputNode, [], NodeType.valueInputNode.declIfaces⟩]
    connectors := [] }

/-- Claim C9 counterexample: a flow with one blank-id node does not round-trip
at all. The first import pass replaces the blank id by `randomId` (yielding
`Value`), the second pass then resolves the exported blank id attribute
against the renamed registry and fails, so `load(save(flow))` reproduces
nothing — not even the node set. -/
theorem c9_counterexample :
    blankIdFlow.nodes.map (fun n => n.id) = [""]
    ∧ load "flow.xml" (blankIdFlow.save).1 = .error "Node with id not found" :=
  ⟨rfl, rfl⟩

/-- A concrete two-node flow exercising the round-trip: a `ValueInputNode`
carrying the literal `42` on its non-slot `value` parameter, feeding the
non-slot `cmd` parameter of a `ProcessNode`. -/
def roundtripFlow : SFlow :=
  { modified := false, filename := none
    nodes :=
      [⟨"a", .valueInputNode, [],
         [⟨"value", .parameter, .value, false, "42"⟩,
          ⟨"out", .output, .value, true, ""⟩]⟩,
       ⟨"b", .processNode, [],
         [⟨"stdin", .input, .stream, true, "EOF"⟩,
          ⟨"stdout", .output, .stream, true, "EOF"⟩,
          ⟨"stderr", .output, .stream, true, "EOF"⟩,
          ⟨"cmd", .parameter, .value, false, "echo hi"⟩,
          ⟨"result", .result, .value, true, "0"⟩]⟩]
    connectors := [((0, "out"), (1, "cmd"))] }

/-- Witness for the amended claim C9 at a concrete flow. -/
theorem c9_witness :
    ∃ f2, load "w.xml" (roundtripFlow.save).1 = .ok f2
      ∧ f2.nodes.map (fun n => n.id) = roundtripFlow.nodes.map (fun n => n.id)
      ∧ f2.nodes.map (fun n => n.typeTag)
          = roundtripFlow.nodes.map (fun n => n.typeTag)
      ∧ (∀ (r : Ref) (s : SIface), roundtripFlow.iface r = some s →
          restoresValue s = true → valAt f2 r = some s.value)
      ∧ (∀ e, e ∈ f2.connectors ↔ e ∈ roundtripFlow.connectors) :=
  c9_roundtrip roundtripFlow "w.xml" (by decide) (by decide) (by decide) (by decide)

end Florun
